import Mathlib

/-! vdrift: parameter parsing, lap sequence, surfaces, load state, ray casts and the
fixed camera.

A shallow embedding of `include/track.h` and `src/camera_fixed.cpp`.

* An input stream (`std::ifstream`, `std::stringstream`) is the list of its unread
  characters together with the three `iostate` bits.
* `unsigned int` is a natural number reduced modulo `2 ^ 32`; container sizes are natural
  numbers.
* A member function is a function of the object's state that returns the state afterwards
  next to its result.
* Float vectors and quaternions are abstract types whose operations are parameters, and
  distances along a ray are an abstract ordered type.
* The members of `TRACK` that `track.h` only declares (`Clear`, `Load`, `DeferredLoad`,
  `ContinueDeferredLoad`, `CastRay`, the constructor) are modelled from the specification;
  each such definition says so.
-/

namespace Vdrift

/-! ## Input streams -/

/-- The `isspace` classification of the classic "C" locale. -/
def isspace (c : Char) : Bool :=
  c = ' ' || c = '\t' || c = '\n' || c = '\x0b' || c = '\x0c' || c = '\r'

/-- An input stream: the characters not yet extracted, and the `iostate` bits. -/
structure ifstream where
  buf : List Char
  eofbit : Bool
  failbit : Bool
  badbit : Bool
deriving DecidableEq, Repr

/-- The test `std::ios::good()`: no state bit is set. -/
def ifstream.good (f : ifstream) : Bool :=
  !f.eofbit && !f.failbit && !f.badbit

/-- A stream freshly opened on the given content (also `std::stringstream sstr(instr)`). -/
def ifstream.ofChars (cs : List Char) : ifstream :=
  { buf := cs, eofbit := false, failbit := false, badbit := false }

/-- The extraction `operator>>(std::istream &, std::string &)`: the sentry fails on a stream
that is not good (setting `failbit`, leaving the string alone); otherwise leading whitespace
is skipped,
and reaching the end there sets `eofbit | failbit` and leaves the string alone; otherwise the
string is erased and filled with the characters up to the next whitespace, and `eofbit` is
set when the end of the content stops the extraction. -/
def read_string (f : ifstream) (str : List Char) : ifstream × List Char :=
  if f.good then
    match f.buf.dropWhile isspace with
    | [] => ({ f with buf := [], eofbit := true, failbit := true }, str)
    | c :: cs =>
      let rest := (c :: cs).dropWhile (fun x => !isspace x)
      ({ f with buf := rest, eofbit := rest.isEmpty }, (c :: cs).takeWhile (fun x => !isspace x))
  else ({ f with failbit := true }, str)

/-- The extraction `operator>>(std::istream &, int &)` for the default decimal base: the
sentry as in `read_string` (a failing sentry stores nothing), then an optional sign and the
longest run of decimal digits. With no digit `failbit` is set and 0 is stored; a value
outside the range of a 32-bit `int` sets `failbit` and stores the nearest limit, `INT_MIN`
or `INT_MAX`. -/
def read_int (f : ifstream) (v : Int) : ifstream × Int :=
  if f.good then
    match f.buf.dropWhile isspace with
    | [] => ({ f with buf := [], eofbit := true, failbit := true }, v)
    | c :: cs =>
      let body := if c = '-' ∨ c = '+' then cs else c :: cs
      let digits := body.takeWhile Char.isDigit
      let rest := body.dropWhile Char.isDigit
      let n : Int := (digits.foldl (fun a d => 10 * a + (d.toNat - 48)) 0 : Nat)
      let value : Int := if c = '-' then -n else n
      if digits.isEmpty then
        ({ f with buf := rest, eofbit := rest.isEmpty, failbit := true }, 0)
      else if value < -2147483648 then
        ({ f with buf := rest, eofbit := rest.isEmpty, failbit := true }, -2147483648)
      else if 2147483647 < value then
        ({ f with buf := rest, eofbit := rest.isEmpty, failbit := true }, 2147483647)
      else ({ f with buf := rest, eofbit := rest.isEmpty }, value)
  else ({ f with failbit := true }, v)

/-- The extraction loop of `std::istream::ignore(n, delim)`: stop after `n` characters, or at
the end of the content (second component `true`: `eofbit`), or after extracting `delim`. -/
def ignore_chars (delim : Char) : Nat → List Char → List Char × Bool
  | 0, cs => (cs, false)
  | _ + 1, [] => ([], true)
  | n + 1, c :: cs => if c = delim then (cs, false) else ignore_chars delim n cs

/-- The call `std::istream::ignore(n, delim)`. -/
def ifstream.ignore (f : ifstream) (n : Nat) (delim : Char) : ifstream :=
  if f.good then
    let r := ignore_chars delim n f.buf
    { f with buf := r.1, eofbit := r.2 }
  else { f with failbit := true }

/-! ## `TRACK::GetParam` -/

/-- The measure of the comment loop: a stream that is not good ends the loop at once, a good
one has its unread characters left. -/
def loop_measure (f : ifstream) : Nat :=
  if f.good then f.buf.length + 1 else 0

/-- The loop `while (!instr.empty() && instr[0] == '#' && f.good())
{ f.ignore(1024, '\n'); f >> instr; }`. It ends on every stream: an iteration that leaves
the stream good has extracted a token. -/
def GetParam_loop (f : ifstream) (instr : List Char) : ifstream × List Char :=
  if instr.head? = some '#' ∧ f.good = true then
    GetParam_loop (read_string (f.ignore 1024 '\n') instr).1
      (read_string (f.ignore 1024 '\n') instr).2
  else (f, instr)
termination_by loop_measure f
decreasing_by
  rename_i h
  have hlen : ∀ (n : Nat) (cs : List Char),
      (ignore_chars '\n' n cs).1.length ≤ cs.length := by
    intro n
    induction n with
    | zero => intro cs; simp [ignore_chars]
    | succ n ih =>
      intro cs
      cases cs with
      | nil => simp [ignore_chars]
      | cons c cs =>
        simp only [ignore_chars]
        split
        · simp
        · exact Nat.le_trans (ih cs) (by simp)
  have h2 : (f.ignore 1024 '\n').buf.length ≤ f.buf.length := by
    unfold ifstream.ignore
    split
    · exact hlen 1024 f.buf
    · exact Nat.le_refl _
  have h1 : loop_measure (read_string (f.ignore 1024 '\n') instr).1 <
      (f.ignore 1024 '\n').buf.length + 1 := by
    generalize f.ignore 1024 '\n' = g
    unfold read_string
    split
    · split
      · simp [loop_measure, ifstream.good]
      · rename_i c cs hd
        have hc : isspace c = false := by
          have := List.head_dropWhile_not isspace g.buf (by simp [hd])
          simpa [hd] using this
        have a1 : (c :: cs).length ≤ g.buf.length := by
          rw [← hd]; exact (List.dropWhile_sublist _).length_le
        have a2 : ((c :: cs).dropWhile (fun x => !isspace x)).length ≤ cs.length := by
          rw [List.dropWhile_cons_of_pos (by simp [hc])]
          exact (List.dropWhile_sublist _).length_le
        simp only [loop_measure]
        split
        · simp only [List.length_cons] at a1
          omega
        · omega
    · simp [loop_measure, ifstream.good]
  have h3 : loop_measure f = f.buf.length + 1 := by simp [loop_measure, h.2]
  rw [h3]
  omega

/-- The result of `GetParam`: the returned flag, the value of `output` afterwards, and the
stream afterwards. -/
structure GetParamResult (T : Type) where
  ret : Bool
  output : T
  f : ifstream

/-- The member `TRACK::GetParam<T>`; `extract` is `operator>>(std::istream &, T &)` for the output
type, applied to the string stream built from the token. -/
def GetParam {T : Type} (extract : ifstream → T → ifstream × T) (f : ifstream) (output : T) :
    GetParamResult T :=
  if !f.good then ⟨false, output, f⟩
  else
    let r0 := read_string f []
    if r0.2.isEmpty then ⟨false, output, r0.1⟩
    else
      let r := GetParam_loop r0.1 r0.2
      if !r.1.good && !r.2.isEmpty && r.2.head? = some '#' then ⟨false, output, r.1⟩
      else ⟨true, (extract (ifstream.ofChars r.2) output).2, r.1⟩

/-! ### The reading of the parameter file the specification describes -/

/-- A comment runs to the end of its line: what is left after discarding the rest of the
line, its newline included. -/
def skip_line (cs : List Char) : List Char :=
  (cs.dropWhile (fun x => x != '\n')).drop 1

/-- The first whitespace-delimited token that is not part of a comment, where a token
beginning with `#` opens a comment that runs to the end of its line; `none` when only
whitespace and comments are left. -/
def first_param_token (cs : List Char) : Option (List Char) :=
  if (cs.dropWhile isspace).head? = some '#' then
    first_param_token (skip_line ((cs.dropWhile isspace).dropWhile (fun x => !isspace x)))
  else if (cs.dropWhile isspace).isEmpty then none
  else some ((cs.dropWhile isspace).takeWhile (fun x => !isspace x))
termination_by cs.length
decreasing_by
  rename_i h
  have h1 := (List.dropWhile_sublist isspace (l := cs)).length_le
  have h3 : (skip_line ((cs.dropWhile isspace).dropWhile (fun x => !isspace x))).length ≤
      ((cs.dropWhile isspace).dropWhile (fun x => !isspace x)).length := by
    unfold skip_line
    have a := (List.dropWhile_sublist (fun x => x != '\n')
      (l := (cs.dropWhile isspace).dropWhile (fun x => !isspace x))).length_le
    simp only [List.length_drop]
    omega
  cases hd : cs.dropWhile isspace with
  | nil => simp [hd] at h
  | cons c rest =>
    rw [hd] at h h1 h3
    have hc : c = '#' := by simpa using h
    have h2 : ((c :: rest).dropWhile (fun x => !isspace x)).length ≤ rest.length := by
      rw [List.dropWhile_cons_of_pos (by subst hc; decide)]
      exact (List.dropWhile_sublist _).length_le
    simp only [List.length_cons] at h1
    omega

/-- Every line of the content, counted from any position in it up to the next newline, has
at most `n` characters. -/
def lines_fit (n : Nat) : List Char → Bool
  | [] => true
  | c :: cs => decide (((c :: cs).takeWhile (fun x => x != '\n')).length ≤ n) && lines_fit n cs

/-- What the specification's reading of the parameter file gives for a call of `GetParam`:
no token outside comments, so `false` and `output` untouched; or the token `tok`, so `true`
and `output` extracted from `tok`. -/
def GetParam_agrees {T : Type} (extract : ifstream → T → ifstream × T) (output : T)
    (r : GetParamResult T) : Option (List Char) → Prop
  | none => r.ret = false ∧ r.output = output
  | some tok => r.ret = true ∧ r.output = (extract (ifstream.ofChars tok) output).2 ∧
      tok.head? ≠ some '#'

/-! ## The track -/

/-- The types declared in headers that are not part of this development. -/
structure Externals where
  MODEL_JOE03 : Type
  TEXTURE_GL : Type
  TRACK_OBJECT : Type
  TRACKSURFACE : Type
  ROADSTRIP : Type
  OBJECTLOADER : Type
  START_POSITION : Type

/-- A pointer value (`const BEZIER *`, `SCENENODE *`): an address. -/
abbrev Pointer := Nat

/-- The null pointer. -/
def NULL : Pointer := 0

/-- Conversion to `unsigned int` (32 bits). -/
def to_unsigned_int (n : Nat) : Nat := n % 2 ^ 32

/-- The anonymous enumeration of `TRACK::direction`. -/
inductive DIRECTION where
  | DIRECTION_FORWARD
  | DIRECTION_REVERSE
deriving DecidableEq, Repr

/-- The data members of `TRACK` (the two `std::ostream &` members refer to streams outside
the object and are left out); `std::map`, `std::list` and `std::vector` are lists,
`std::auto_ptr` is an `Option`. -/
structure TRACK (X : Externals) where
  texture_size : List Char
  model_library : List (List Char × X.MODEL_JOE03)
  texture_library : List (List Char × X.TEXTURE_GL)
  objects : List X.TRACK_OBJECT
  vertical_tracking_skyboxes : Bool
  start_positions : List X.START_POSITION
  usesurfaces : Bool
  tracksurfaces : List X.TRACKSURFACE
  surface : X.TRACKSURFACE
  direction : DIRECTION
  roads : List X.ROADSTRIP
  lapsequence : List Pointer
  racingline_node : Pointer
  racingline_texture : X.TEXTURE_GL
  objload : Option X.OBJECTLOADER
  loaded : Bool
  cull : Bool

/-- How a call ends: with a value, or in the failure of an `assert`, or in an access outside
the bounds of a container. -/
inductive Outcome (α : Type) where
  | returned (value : α)
  | assertion_failed
  | out_of_bounds
deriving DecidableEq, Repr

/-- The member `TRACK::Loaded`. -/
def Loaded {X : Externals} (t : TRACK X) : Bool × TRACK X :=
  (t.loaded, t)

/-- The member `TRACK::GetSectors`: `lapsequence.size()` converted to the return type
`unsigned int`. -/
def GetSectors {X : Externals} (t : TRACK X) : Nat × TRACK X :=
  (to_unsigned_int t.lapsequence.length, t)

/-- The member `TRACK::GetLapSequence`; the argument is an `unsigned int`, compared with the `size_t`
size of the vector. -/
def GetLapSequence {X : Externals} (t : TRACK X) (sector : Nat) : Outcome Pointer × TRACK X :=
  if sector < t.lapsequence.length then
    match t.lapsequence[sector]? with
    | some b => (Outcome.returned b, t)
    | none => (Outcome.out_of_bounds, t)
  else (Outcome.assertion_failed, t)

/-- A call made on a scene node. -/
inductive SCENE_CALL where
  | SetChildVisibility (node : Pointer) (newvis : Bool)
deriving DecidableEq, Repr

/-- The member `TRACK::SetRacingLineVisibility`: the track afterwards and the calls made on scene
nodes. -/
def SetRacingLineVisibility {X : Externals} (t : TRACK X) (newvis : Bool) :
    TRACK X × List SCENE_CALL :=
  if t.racingline_node ≠ NULL then (t, [SCENE_CALL.SetChildVisibility t.racingline_node newvis])
  else (t, [])

/-- Modelled from the spec: `TRACK::Clear`, defined in `track.cpp`, which is not among the
sources. The specification has it return the track to the `Empty` state and release all
owned geometry: the libraries, objects, start positions, named surfaces, roads, lap sequence
and object loader are emptied and `loaded` is reset. -/
def Clear {X : Externals} (t : TRACK X) : TRACK X :=
  { t with
    model_library := [], texture_library := [], objects := [], start_positions := [],
    usesurfaces := false, tracksurfaces := [], roads := [], lapsequence := [],
    objload := none, loaded := false }

/-- The member `TRACK::Unload`. -/
def Unload {X : Externals} (t : TRACK X) : TRACK X :=
  Clear { t with racingline_node := NULL }

/-- A `const TRACKSURFACE *`: null, or the address of the member `surface`, or the address
of an element of the list `tracksurfaces`. -/
inductive SURFACE_PTR where
  | null
  | member_surface
  | in_tracksurfaces (index : Nat)
deriving DecidableEq, Repr

/-- The surface a `const TRACKSURFACE *` points to in a track. -/
def TRACK.surface_at {X : Externals} (t : TRACK X) : SURFACE_PTR → Option X.TRACKSURFACE
  | SURFACE_PTR.null => none
  | SURFACE_PTR.member_surface => some t.surface
  | SURFACE_PTR.in_tracksurfaces i => t.tracksurfaces[i]?

/-- The member `TRACK::GetRoadSurface`: `return &surface;`. -/
def GetRoadSurface {X : Externals} (t : TRACK X) : SURFACE_PTR × TRACK X :=
  (SURFACE_PTR.member_surface, t)

/-! ## The fixed camera -/

/-- The vector and quaternion operations `CAMERA_FIXED` uses, declared in `mathvector.h` and
`quaternion.h`, over the types `V` of `MATHVECTOR <float, 3>`, `Q` of `QUATERNION <float>`
and `F` of `float`. -/
structure MATH_OPS (V Q F : Type) where
  add : V → V → V
  RotateVector : Q → V → V
  Set : F → F → F → V

/-- The data members of `CAMERA_FIXED`, those of its base `CAMERA` included. -/
structure CAMERA_FIXED (V Q : Type) where
  name : List Char
  position : V
  orientation : Q
  offset : V

/-- The member `CAMERA_FIXED::Reset`. -/
def CAMERA_FIXED.Reset {V Q F : Type} (ops : MATH_OPS V Q F) (c : CAMERA_FIXED V Q) (newpos : V)
    (newquat : Q) : CAMERA_FIXED V Q :=
  let newoffset := c.offset
  let newoffset := ops.RotateVector newquat newoffset
  { c with position := ops.add newpos newoffset, orientation := newquat }

/-- The member `CAMERA_FIXED::Update`. -/
def CAMERA_FIXED.Update {V Q F : Type} (ops : MATH_OPS V Q F) (c : CAMERA_FIXED V Q)
    (newpos : V) (newquat : Q) (_unnamed : V) (_unnamed_float : F) : CAMERA_FIXED V Q :=
  c.Reset ops newpos newquat

/-- The member `CAMERA_FIXED::SetOffset`. -/
def CAMERA_FIXED.SetOffset {V Q F : Type} (ops : MATH_OPS V Q F) (c : CAMERA_FIXED V Q)
    (x y z : F) : CAMERA_FIXED V Q :=
  { c with offset := ops.Set x y z }

/-! ## The load state machine -/

/-- Modelled from the spec: an entry of the objects file as the deferred object loader of
section 4.5 meets it (`track.cpp` and the object loader are not among the sources): a valid
entry gives an object, a malformed entry is reported and skipped, and a step can fail
fatally. -/
inductive OBJECT_ENTRY (X : Externals) where
  | valid (object : X.TRACK_OBJECT)
  | malformed
  | fatal

/-- Modelled from the spec: the states of the track state machine of section 4.6 (`track.cpp`
is not among the sources). `ObjectsLoading` holds what the load has still to do: the entries
the object loader has left, and what the derivation of the racing line, the stage after the
objects, will give. -/
inductive LOAD_STATE (X : Externals) where
  | Empty
  | ParametersLoaded
  | SurfacesLoaded
  | RoadsLoaded
  | ObjectsLoading (pending : List (OBJECT_ENTRY X))
      (racingline : Option (Pointer × X.TEXTURE_GL))
  | FullyLoaded

/-- Modelled from the spec: what the files under a track path give to each load stage
(section 6); `none` is a missing or unreadable file or a stage that fails, which is no error
for the surfaces. -/
structure TRACK_FILES (X : Externals) where
  parameters : Option (List X.START_POSITION)
  surfaces : Option (List X.TRACKSURFACE)
  roads : Option (List X.ROADSTRIP)
  lapsequence : Option (List Pointer)
  objects : Option (List (OBJECT_ENTRY X))
  racingline : Option (Pointer × X.TEXTURE_GL)

/-- A track together with its state in the load state machine. -/
structure LOADING (X : Externals) where
  track : TRACK X
  state : LOAD_STATE X

/-- Modelled from the spec: the constructor `TRACK::TRACK` (in `track.cpp`): "constructed
empty", with the reserved default surface. -/
def LOADING.construct {X : Externals} (surface : X.TRACKSURFACE) (texture : X.TEXTURE_GL) :
    LOADING X :=
  { track :=
      { texture_size := [], model_library := [], texture_library := [],
        objects := [], vertical_tracking_skyboxes := false, start_positions := [],
        usesurfaces := false, tracksurfaces := [], surface := surface,
        direction := DIRECTION.DIRECTION_FORWARD, roads := [], lapsequence := [],
        racingline_node := NULL, racingline_texture := texture, objload := none,
        loaded := false, cull := false },
    state := LOAD_STATE.Empty }

/-- The member `TRACK::Clear` on the state machine: "any stage failure transitions to `Empty`
(via `Clear`)". -/
def LOADING.Clear {X : Externals} (s : LOADING X) : LOADING X :=
  { track := Vdrift.Clear s.track, state := LOAD_STATE.Empty }

/-- The member `TRACK::Unload` on the state machine. -/
def LOADING.Unload {X : Externals} (s : LOADING X) : LOADING X :=
  { track := Vdrift.Unload s.track, state := LOAD_STATE.Empty }

/-- Run the next stage when the stages so far have succeeded. -/
def and_then {X : Externals} (r : Bool × LOADING X) (next : LOADING X → Bool × LOADING X) :
    Bool × LOADING X :=
  if r.1 then next r.2 else r

/-- Modelled from the spec: the parameters stage, `Empty → ParametersLoaded`; a missing
parameter file is fatal to the stage. -/
def LoadParameters {X : Externals} (files : TRACK_FILES X) (s : LOADING X) : Bool × LOADING X :=
  match files.parameters with
  | none => (false, s.Clear)
  | some starts =>
    (true, { track := { s.track with start_positions := starts },
             state := LOAD_STATE.ParametersLoaded })

/-- Modelled from the spec: the surfaces stage, `ParametersLoaded → SurfacesLoaded`;
"optional file; absence is not an error, registry then contains only the default entry". -/
def LoadSurfaces {X : Externals} (files : TRACK_FILES X) (s : LOADING X) : Bool × LOADING X :=
  match files.surfaces with
  | none => (true, { track := { s.track with usesurfaces := false },
                     state := LOAD_STATE.SurfacesLoaded })
  | some named =>
    (true, { track := { s.track with usesurfaces := true, tracksurfaces := named },
             state := LOAD_STATE.SurfacesLoaded })

/-- Modelled from the spec: the roads stage with the lap sequence,
`SurfacesLoaded → RoadsLoaded`; each of the two can fail. -/
def LoadRoads {X : Externals} (files : TRACK_FILES X) (reverse : Bool) (s : LOADING X) :
    Bool × LOADING X :=
  match files.roads, files.lapsequence with
  | some roads, some sequence =>
    (true, { track := { s.track with
                        roads := roads, lapsequence := sequence,
                        direction := if reverse then DIRECTION.DIRECTION_REVERSE
                                     else DIRECTION.DIRECTION_FORWARD },
             state := LOAD_STATE.RoadsLoaded })
  | _, _ => (false, s.Clear)

/-- Modelled from the spec: `BeginObjectLoad` (`BeginLoad` of section 4.5),
`RoadsLoaded → ObjectsLoading`; "a failure opening the description source itself is fatal to
the whole load stage". -/
def BeginObjectLoad {X : Externals} (files : TRACK_FILES X) (s : LOADING X) : Bool × LOADING X :=
  match files.objects with
  | none => (false, s.Clear)
  | some entries =>
    (true, { s with state := LOAD_STATE.ObjectsLoading entries files.racingline })

/-- Modelled from the spec: `TRACK::DeferredLoad`: "runs the non-object stages synchronously
then leaves the Track in `ObjectsLoading`"; a load starts from `Empty`. -/
def DeferredLoad {X : Externals} (files : TRACK_FILES X) (reverse : Bool) (s : LOADING X) :
    Bool × LOADING X :=
  and_then (and_then (and_then (LoadParameters files s.Clear) (LoadSurfaces files))
    (LoadRoads files reverse)) (BeginObjectLoad files)

/-- Modelled from the spec: `TRACK::ContinueDeferredLoad`: "drives 4.5 one step and returns
whether the step made progress, reporting failure if the step failed fatally". A valid entry
is loaded, a malformed one is skipped, a fatal one fails the stage. With no entry left the
racing line is derived, the last stage ("parameters → surfaces → roads/lap-sequence →
objects → derived racing line"), and the load is complete when that succeeds ("the very first
`ContinueDeferredLoad()` call reports load complete" for no objects). Outside
`ObjectsLoading` there is nothing to drive. -/
def ContinueDeferredLoad {X : Externals} (s : LOADING X) : Bool × LOADING X :=
  match s.state with
  | LOAD_STATE.ObjectsLoading [] (some line) =>
    (true, { track := { s.track with
                        racingline_node := line.1, racingline_texture := line.2,
                        loaded := true },
             state := LOAD_STATE.FullyLoaded })
  | LOAD_STATE.ObjectsLoading [] none => (false, s.Clear)
  | LOAD_STATE.ObjectsLoading (OBJECT_ENTRY.valid object :: rest) line =>
    (true, { track := { s.track with objects := s.track.objects ++ [object] },
             state := LOAD_STATE.ObjectsLoading rest line })
  | LOAD_STATE.ObjectsLoading (OBJECT_ENTRY.malformed :: rest) line =>
    (true, { s with state := LOAD_STATE.ObjectsLoading rest line })
  | LOAD_STATE.ObjectsLoading (OBJECT_ENTRY.fatal :: _) _ => (false, s.Clear)
  | _ => (s.track.loaded, s)

/-- Drive the object stage and the racing line to the end: at most `fuel` steps, stopping at
a step that reports failure or completes the load. -/
def drive_objects {X : Externals} : Nat → LOADING X → Bool × LOADING X
  | 0, s => (s.track.loaded, s)
  | fuel + 1, s =>
    let r := ContinueDeferredLoad s
    if r.1 && !r.2.track.loaded then drive_objects fuel r.2 else r

/-- The number of entries the object loader has left (`RemainingCount` of section 4.5). -/
def LOAD_STATE.remaining {X : Externals} : LOAD_STATE X → Nat
  | LOAD_STATE.ObjectsLoading pending _ => pending.length
  | _ => 0

/-- Modelled from the spec: `TRACK::Load`: "runs all stages synchronously and returns overall
success/failure": the stages before the objects, then one step for each entry and the step
that derives the racing line. -/
def Load {X : Externals} (files : TRACK_FILES X) (reverse : Bool) (s : LOADING X) :
    Bool × LOADING X :=
  and_then (DeferredLoad files reverse s) (fun s1 => drive_objects (s1.state.remaining + 1) s1)

/-- The track after `k` calls of `ContinueDeferredLoad`. -/
def continue_times {X : Externals} : Nat → LOADING X → LOADING X
  | 0, s => s
  | k + 1, s => continue_times k (ContinueDeferredLoad s).2

/-- The states the public operations of the track reach from a constructed track. -/
inductive Reachable {X : Externals} : LOADING X → Prop where
  | construct (surface : X.TRACKSURFACE) (texture : X.TEXTURE_GL) :
      Reachable (LOADING.construct surface texture)
  | Clear (s : LOADING X) : Reachable s → Reachable s.Clear
  | Unload (s : LOADING X) : Reachable s → Reachable s.Unload
  | Load (files : TRACK_FILES X) (reverse : Bool) (s : LOADING X) :
      Reachable s → Reachable (Load files reverse s).2
  | DeferredLoad (files : TRACK_FILES X) (reverse : Bool) (s : LOADING X) :
      Reachable s → Reachable (DeferredLoad files reverse s).2
  | ContinueDeferredLoad (s : LOADING X) : Reachable s → Reachable (ContinueDeferredLoad s).2
  | SetRacingLineVisibility (s : LOADING X) (newvis : Bool) :
      Reachable s → Reachable { s with track := (SetRacingLineVisibility s.track newvis).1 }

/-! ### The stages of a load, as the specification names them -/

/-- An entry on which a step of the object loader fails fatally. -/
def OBJECT_ENTRY.is_fatal {X : Externals} : OBJECT_ENTRY X → Bool
  | OBJECT_ENTRY.fatal => true
  | _ => false

/-- The objects of the valid entries, in the order of the file. -/
def valid_objects {X : Externals} : List (OBJECT_ENTRY X) → List X.TRACK_OBJECT
  | [] => []
  | OBJECT_ENTRY.valid object :: rest => object :: valid_objects rest
  | _ :: rest => valid_objects rest

/-- The stages before the objects all succeed on the files: the parameters are readable, the
roads and the lap sequence load, and the objects file opens (absent surfaces are no
failure). -/
def early_stages_succeed {X : Externals} (files : TRACK_FILES X) : Bool :=
  files.parameters.isSome && files.roads.isSome && files.lapsequence.isSome &&
    files.objects.isSome

/-- Every stage succeeds on the files ("parameters, surfaces, roads, objects, racing
line"): the stages before the objects, no entry of the objects file on which the loader
fails fatally, and the derivation of the racing line. -/
def all_stages_succeed {X : Externals} (files : TRACK_FILES X) : Bool :=
  early_stages_succeed files &&
    (match files.objects with
     | some entries => entries.all (fun e => !e.is_fatal)
     | none => false) &&
    files.racingline.isSome

/-! ## The bounding-volume space index behind `TRACK::CastRay` -/

/-- Modelled from the spec: the geometry the space index works on (`bezier.h`, `aabb.h`,
`aabb_space_partitioning.h` and `track.cpp` are not among the sources). `intersect` is the
exact ray/patch test of section 4.1 (c), giving the closest hit of the patch within the
maximum length of the ray; `distance` is the distance of a hit along the ray; `box_of` is
the bounding box of a patch (4.1 (a)) and `merge` the union of two boxes; `slab` is the slab
test of section 4.2, `none` when the ray misses the box and the nearest possible hit
distance otherwise; `axis_key` is the coordinate of a patch along the longest axis of a
box. Distances are an ordered type `D`. -/
structure GEOMETRY (Patch Ray Box Hit D : Type) where
  intersect : Ray → Patch → Option Hit
  distance : Hit → D
  box_of : Patch → Box
  merge : Box → Box → Box
  slab : Ray → Box → Option D
  axis_key : Box → Patch → D

/-- Modelled from the spec: a bounding-volume node, "either a leaf holding one or more Patch
references and their union bounding box, or an internal node holding two child nodes and
the union of their boxes". -/
inductive NODE (Patch Box : Type) where
  | leaf (patches : List Patch) (box : Box)
  | inner (left right : NODE Patch Box) (box : Box)

/-- The patches of a node, in the order of the traversal. -/
def NODE.patches {Patch Box : Type} : NODE Patch Box → List Patch
  | NODE.leaf patches _ => patches
  | NODE.inner left right _ => left.patches ++ right.patches

/-- The boxes of a geometry bound: a ray that hits a patch hits the box of the patch no
farther, and a ray that hits a box hits every union with it no farther. -/
structure GEOMETRY.Bounding {Patch Ray Box Hit D : Type} [LinearOrder D]
    (g : GEOMETRY Patch Ray Box Hit D) : Prop where
  patch : ∀ (r : Ray) (p : Patch) (h : Hit), g.intersect r p = some h →
    ∃ d, g.slab r (g.box_of p) = some d ∧ d ≤ g.distance h
  merge_left : ∀ (r : Ray) (a b : Box) (d : D), g.slab r a = some d →
    ∃ e, g.slab r (g.merge a b) = some e ∧ e ≤ d
  merge_right : ∀ (r : Ray) (a b : Box) (d : D), g.slab r b = some d →
    ∃ e, g.slab r (g.merge a b) = some e ∧ e ≤ d

/-- A box covers a patch: a ray that hits the patch hits the box no farther. -/
def Covers {Patch Ray Box Hit D : Type} [LinearOrder D] (g : GEOMETRY Patch Ray Box Hit D)
    (box : Box) (p : Patch) : Prop :=
  ∀ (r : Ray) (h : Hit), g.intersect r p = some h →
    ∃ d, g.slab r box = some d ∧ d ≤ g.distance h

/-- Sample external types: every external type is a number. -/
def sample_externals : Externals :=
  { MODEL_JOE03 := Nat, TEXTURE_GL := Nat, TRACK_OBJECT := Nat, TRACKSURFACE := Nat,
    ROADSTRIP := Nat, OBJECTLOADER := Nat, START_POSITION := Nat }

/-- A sample track with the given lap sequence and racing-line node, its default surface
being surface 1 and surface 2 being its one named surface. -/
def sample_track (lapsequence : List Pointer) (racingline_node : Pointer) :
    TRACK sample_externals :=
  { texture_size := [], model_library := [], texture_library := [], objects := [],
    vertical_tracking_skyboxes := false, start_positions := [], usesurfaces := true,
    tracksurfaces := [(2 : Nat)], surface := (1 : Nat),
    direction := DIRECTION.DIRECTION_FORWARD, roads := [], lapsequence := lapsequence,
    racingline_node := racingline_node, racingline_texture := (0 : Nat), objload := none,
    loaded := false, cull := false }

/-- Sample track files: every stage succeeds, and the objects file has one valid and one
malformed entry. -/
def sample_files : TRACK_FILES sample_externals :=
  { parameters := some [], surfaces := none, roads := some [(7 : Nat)],
    lapsequence := some [100, 104],
    objects := some [OBJECT_ENTRY.valid (5 : Nat), OBJECT_ENTRY.malformed],
    racingline := some (900, (3 : Nat)) }

/-- Sample track files whose objects file has an entry on which the loader fails fatally
after a valid entry. -/
def sample_files_fatal : TRACK_FILES sample_externals :=
  { parameters := some [], surfaces := none, roads := some [(7 : Nat)],
    lapsequence := some [100, 104],
    objects := some [OBJECT_ENTRY.valid (5 : Nat), OBJECT_ENTRY.fatal],
    racingline := some (900, (3 : Nat)) }

/-! # Theorems -/

theorem skip_line_length (cs : List Char) : (skip_line cs).length ≤ cs.length := by
  unfold skip_line
  have h := (List.dropWhile_sublist (fun x => x != '\n') (l := cs)).length_le
  simp only [List.length_drop]
  omega

/-! ### Lemmas on the stream operations -/

theorem lines_fit_tail (n : Nat) (c : Char) (cs : List Char) (h : lines_fit n (c :: cs) = true) :
    lines_fit n cs = true := by
  simp only [lines_fit, Bool.and_eq_true] at h
  exact h.2

theorem lines_fit_head (n : Nat) (cs : List Char) (h : lines_fit n cs = true) :
    (cs.takeWhile (fun x => x != '\n')).length ≤ n := by
  cases cs with
  | nil => simp
  | cons c cs =>
    simp only [lines_fit, Bool.and_eq_true, decide_eq_true_eq] at h
    exact h.1

theorem lines_fit_dropWhile (n : Nat) (p : Char → Bool) (cs : List Char)
    (h : lines_fit n cs = true) : lines_fit n (cs.dropWhile p) = true := by
  induction cs with
  | nil => simpa using h
  | cons c cs ih =>
    rw [List.dropWhile_cons]
    split
    · exact ih (lines_fit_tail n c cs h)
    · exact h

theorem lines_fit_drop (n k : Nat) (cs : List Char) (h : lines_fit n cs = true) :
    lines_fit n (cs.drop k) = true := by
  induction k generalizing cs with
  | zero => simpa using h
  | succ k ih =>
    cases cs with
    | nil => simpa using h
    | cons c cs => simpa using ih cs (lines_fit_tail n c cs h)

theorem lines_fit_skip_line (n : Nat) (cs : List Char) (h : lines_fit n cs = true) :
    lines_fit n (skip_line cs) = true :=
  lines_fit_drop n 1 _ (lines_fit_dropWhile n _ cs h)

/-- On a line within the limit `ignore` leaves the stream either at the end of the content
with `eofbit` set, where the specification's comment also ends the content, or at a place
that differs from the end of the specification's comment by the newline at most. -/
theorem ignore_chars_short (n : Nat) (cs : List Char)
    (h : (cs.takeWhile (fun x => x != '\n')).length ≤ n) :
    ((ignore_chars '\n' n cs).2 = true ∧ (ignore_chars '\n' n cs).1 = [] ∧ skip_line cs = []) ∨
    ((ignore_chars '\n' n cs).2 = false ∧
      ((ignore_chars '\n' n cs).1 = skip_line cs ∨
        (ignore_chars '\n' n cs).1 = '\n' :: skip_line cs)) := by
  induction n generalizing cs with
  | zero =>
    right
    cases cs with
    | nil => simp [ignore_chars, skip_line]
    | cons c cs =>
      by_cases hc : c = '\n'
      · subst hc
        simp [ignore_chars, skip_line]
      · simp [List.takeWhile_cons, hc] at h
  | succ n ih =>
    cases cs with
    | nil => left; simp [ignore_chars, skip_line]
    | cons c cs =>
      by_cases hc : c = '\n'
      · subst hc
        right
        simp [ignore_chars, skip_line]
      · have h1 : (cs.takeWhile (fun x => x != '\n')).length ≤ n := by
          simp [List.takeWhile_cons, hc] at h
          exact h
        have h2 : skip_line (c :: cs) = skip_line cs := by
          simp [skip_line, List.dropWhile_cons, hc]
        simp only [ignore_chars, hc, if_false, h2]
        exact ih cs h1

theorem GetParam_loop_stop (f : ifstream) (instr : List Char)
    (h : ¬ (instr.head? = some '#' ∧ f.good = true)) : GetParam_loop f instr = (f, instr) := by
  rw [GetParam_loop, if_neg h]

theorem GetParam_loop_step (f : ifstream) (instr : List Char)
    (h1 : instr.head? = some '#') (h2 : f.good = true) :
    GetParam_loop f instr =
      GetParam_loop (read_string (f.ignore 1024 '\n') instr).1
        (read_string (f.ignore 1024 '\n') instr).2 := by
  rw [GetParam_loop, if_pos ⟨h1, h2⟩]

theorem read_string_not_good (g : ifstream) (s : List Char) (hg : g.good = false) :
    read_string g s = ({ g with failbit := true }, s) := by
  simp [read_string, hg]

theorem read_string_eof (g : ifstream) (s : List Char) (hg : g.good = true)
    (h : g.buf.dropWhile isspace = []) :
    read_string g s = ({ g with buf := [], eofbit := true, failbit := true }, s) := by
  simp [read_string, hg, h]

theorem read_string_tok (g : ifstream) (s : List Char) (hg : g.good = true) (c : Char)
    (rest : List Char) (h : g.buf.dropWhile isspace = c :: rest) :
    read_string g s =
      ({ g with buf := (c :: rest).dropWhile (fun x => !isspace x),
                eofbit := ((c :: rest).dropWhile (fun x => !isspace x)).isEmpty },
        (c :: rest).takeWhile (fun x => !isspace x)) := by
  simp [read_string, hg, h]

theorem first_param_token_none (cs : List Char) (h : cs.dropWhile isspace = []) :
    first_param_token cs = none := by
  rw [first_param_token]
  simp [h]

theorem first_param_token_comment (cs rest : List Char)
    (h : cs.dropWhile isspace = '#' :: rest) :
    first_param_token cs =
      first_param_token (skip_line (('#' :: rest).dropWhile (fun x => !isspace x))) := by
  rw [first_param_token]
  simp [h]

theorem first_param_token_tok (cs : List Char) (c : Char) (rest : List Char)
    (h : cs.dropWhile isspace = c :: rest) (hc : c ≠ '#') :
    first_param_token cs = some ((c :: rest).takeWhile (fun x => !isspace x)) := by
  rw [first_param_token]
  simp [h, hc]

theorem dropWhile_head_not_space (cs : List Char) (c : Char) (rest : List Char)
    (h : cs.dropWhile isspace = c :: rest) : isspace c = false := by
  have := List.head_dropWhile_not isspace cs (by simp [h])
  simpa [h] using this

theorem token_head (c : Char) (rest : List Char) (hc : isspace c = false) :
    ((c :: rest).takeWhile (fun x => !isspace x)).head? = some c := by
  simp [List.takeWhile_cons, hc]

/-- The comment loop against the specification's reading, on content whose lines are within
the limit of `ignore`: entered after a token beginning with `#` was read, it ends either with
the stream not good and the token still a comment token (nothing but comments was left), or
with the first token outside comments. -/
theorem GetParam_loop_short_lines (n : Nat) : ∀ (g : ifstream) (instr : List Char),
    g.buf.length < n → instr.head? = some '#' → g.failbit = false → g.badbit = false →
    (g.eofbit = true → g.buf = []) → lines_fit 1024 g.buf = true →
    (first_param_token (skip_line g.buf) = none ∧ (GetParam_loop g instr).1.good = false ∧
      (GetParam_loop g instr).2.head? = some '#') ∨
    (∃ tok, first_param_token (skip_line g.buf) = some tok ∧ (GetParam_loop g instr).2 = tok ∧
      tok.head? ≠ some '#') := by
  induction n with
  | zero => intro g instr h; omega
  | succ n ih =>
    intro g instr hlen hinstr hfail hbad heof hfit
    by_cases hg : g.good = true
    · -- one iteration
      rw [GetParam_loop_step g instr hinstr hg]
      have heof0 : g.eofbit = false := by
        simp [ifstream.good, hfail, hbad] at hg
        exact hg
      have hign : g.ignore 1024 '\n' =
          { g with buf := (ignore_chars '\n' 1024 g.buf).1,
                   eofbit := (ignore_chars '\n' 1024 g.buf).2 } := by
        simp [ifstream.ignore, hg]
      rcases ignore_chars_short 1024 g.buf (lines_fit_head 1024 g.buf hfit) with
        ⟨h2, _, h3⟩ | ⟨h2, h1⟩
      · -- the comment runs to the end of the content
        left
        have hg1 : (g.ignore 1024 '\n').good = false := by
          rw [hign]; simp [ifstream.good, h2]
        rw [read_string_not_good _ _ hg1]
        rw [GetParam_loop_stop _ _ (by simp [ifstream.good])]
        refine ⟨?_, by simp [ifstream.good], hinstr⟩
        rw [h3]
        exact first_param_token_none [] rfl
      · have hg1 : (g.ignore 1024 '\n').good = true := by
          rw [hign]; simp [ifstream.good, h2, hfail, hbad]
        have hds : (g.ignore 1024 '\n').buf.dropWhile isspace =
            (skip_line g.buf).dropWhile isspace := by
          rw [hign]
          rcases h1 with h1 | h1
          · simp [h1]
          · simp only [h1]
            rw [List.dropWhile_cons_of_pos (by decide)]
        cases hd : (skip_line g.buf).dropWhile isspace with
        | nil =>
          left
          rw [read_string_eof _ _ hg1 (by rw [hds, hd])]
          rw [GetParam_loop_stop _ _ (by simp [ifstream.good])]
          exact ⟨first_param_token_none _ hd, by simp [ifstream.good], hinstr⟩
        | cons c rest =>
          have hc := dropWhile_head_not_space _ c rest hd
          rw [read_string_tok _ _ hg1 c rest (by rw [hds, hd])]
          by_cases hcc : c = '#'
          · subst hcc
            rw [first_param_token_comment _ rest hd]
            have hlen2 : (('#' :: rest).dropWhile (fun x => !isspace x)).length < n := by
              have a1 : (('#' :: rest).dropWhile (fun x => !isspace x)).length ≤ rest.length := by
                rw [List.dropWhile_cons_of_pos (by decide)]
                exact (List.dropWhile_sublist _).length_le
              have a2 : ('#' :: rest).length ≤ (skip_line g.buf).length := by
                rw [← hd]; exact (List.dropWhile_sublist _).length_le
              have a3 := skip_line_length g.buf
              simp only [List.length_cons] at a2
              omega
            have hfit2 : lines_fit 1024 (('#' :: rest).dropWhile (fun x => !isspace x)) = true := by
              apply lines_fit_dropWhile
              rw [← hd]
              exact lines_fit_dropWhile _ _ _ (lines_fit_skip_line _ _ hfit)
            have hf1 : (g.ignore 1024 '\n').failbit = false := by rw [hign]; exact hfail
            have hb1 : (g.ignore 1024 '\n').badbit = false := by rw [hign]; exact hbad
            exact ih
              { g.ignore 1024 '\n' with
                buf := ('#' :: rest).dropWhile (fun x => !isspace x),
                eofbit := (('#' :: rest).dropWhile (fun x => !isspace x)).isEmpty }
              (('#' :: rest).takeWhile (fun x => !isspace x))
              hlen2 (token_head '#' rest hc) hf1 hb1 (by simp) hfit2
          · right
            refine ⟨_, first_param_token_tok _ c rest hd hcc, ?_, ?_⟩
            · rw [GetParam_loop_stop _ _ (by rw [token_head c rest hc]; simp [hcc])]
            · rw [token_head c rest hc]; simp [hcc]
    · -- the token was read up to the end of the content
      have hnil : g.buf = [] := by
        apply heof
        simp [ifstream.good, hfail, hbad] at hg
        exact hg
      left
      rw [GetParam_loop_stop _ _ (by simp [hg])]
      refine ⟨?_, by simpa using hg, hinstr⟩
      rw [hnil]
      exact first_param_token_none _ rfl

theorem GetParam_short_lines {T : Type} (extract : ifstream → T → ifstream × T) (f : ifstream)
    (output : T) (hgood : f.good = true) (hfit : lines_fit 1024 f.buf = true) :
    GetParam_agrees extract output (GetParam extract f output) (first_param_token f.buf) := by
  have hbits : f.eofbit = false ∧ f.failbit = false ∧ f.badbit = false := by
    simpa [ifstream.good, and_assoc] using hgood
  cases hd : f.buf.dropWhile isspace with
  | nil =>
    rw [first_param_token_none _ hd]
    simp [GetParam_agrees, GetParam, hgood, read_string_eof f [] hgood hd]
  | cons c rest =>
    have hc := dropWhile_head_not_space _ c rest hd
    have hr0 := read_string_tok f [] hgood c rest hd
    have htok := token_head c rest hc
    have hne : ((c :: rest).takeWhile (fun x => !isspace x)).isEmpty = false := by
      cases hx : (c :: rest).takeWhile (fun x => !isspace x) with
      | nil => rw [hx] at htok; simp at htok
      | cons _ _ => rfl
    by_cases hcc : c = '#'
    · subst hcc
      rw [first_param_token_comment _ rest hd]
      have hlen : (('#' :: rest).dropWhile (fun x => !isspace x)).length <
          f.buf.length + 1 := by
        have a1 := (List.dropWhile_sublist (fun x => !isspace x) (l := '#' :: rest)).length_le
        have a2 : ('#' :: rest).length ≤ f.buf.length := by
          rw [← hd]; exact (List.dropWhile_sublist _).length_le
        omega
      have hfit2 : lines_fit 1024 (('#' :: rest).dropWhile (fun x => !isspace x)) = true := by
        apply lines_fit_dropWhile
        rw [← hd]
        exact lines_fit_dropWhile _ _ _ hfit
      have key := GetParam_loop_short_lines (f.buf.length + 1)
        { f with
          buf := ('#' :: rest).dropWhile (fun x => !isspace x),
          eofbit := (('#' :: rest).dropWhile (fun x => !isspace x)).isEmpty }
        (('#' :: rest).takeWhile (fun x => !isspace x))
        hlen htok hbits.2.1 hbits.2.2 (by simp) hfit2
      rcases key with ⟨k1, k2, k3⟩ | ⟨tok, k1, k2, k3⟩
      · simp only [] at k1
        rw [k1]
        have k4 : (GetParam_loop
            { f with
              buf := ('#' :: rest).dropWhile (fun x => !isspace x),
              eofbit := (('#' :: rest).dropWhile (fun x => !isspace x)).isEmpty }
            (('#' :: rest).takeWhile (fun x => !isspace x))).2.isEmpty = false := by
          cases hx : (GetParam_loop
            { f with
              buf := ('#' :: rest).dropWhile (fun x => !isspace x),
              eofbit := (('#' :: rest).dropWhile (fun x => !isspace x)).isEmpty }
            (('#' :: rest).takeWhile (fun x => !isspace x))).2 with
          | nil => rw [hx] at k3; simp at k3
          | cons _ _ => rfl
        simp [GetParam_agrees, GetParam, hgood, hr0, hne, k2, k3, k4]
      · simp only [] at k1
        rw [k1]
        simp [GetParam_agrees, GetParam, hgood, hr0, hne, k2, k3]
    · rw [first_param_token_tok _ c rest hd hcc]
      have hstop := GetParam_loop_stop
        { f with
          buf := (c :: rest).dropWhile (fun x => !isspace x),
          eofbit := ((c :: rest).dropWhile (fun x => !isspace x)).isEmpty }
        ((c :: rest).takeWhile (fun x => !isspace x)) (by rw [htok]; simp [hcc])
      simp [GetParam_agrees, GetParam, hgood, hr0, hne, hstop, htok, hcc]

/-- A stream that is not good on entry: `false`, `output` and the stream untouched. -/
theorem GetParam_not_good {T : Type} (extract : ifstream → T → ifstream × T) (f : ifstream)
    (output : T) (h : f.good = false) :
    GetParam extract f output = ⟨false, output, f⟩ := by
  simp [GetParam, h]

/-- Every `false` result leaves `output` as it was. -/
theorem GetParam_false_output {T : Type} (extract : ifstream → T → ifstream × T) (f : ifstream)
    (output : T) (h : (GetParam extract f output).ret = false) :
    (GetParam extract f output).output = output := by
  simp only [GetParam] at h ⊢
  split_ifs at h ⊢ <;> rfl

/-! ### A comment longer than the limit of `ignore` -/

theorem ignore_chars_replicate (delim c : Char) (hc : c ≠ delim) (n : Nat) (rest : List Char) :
    ignore_chars delim n (List.replicate n c ++ rest) = (rest, false) := by
  induction n with
  | zero => simp [ignore_chars]
  | succ n ih => simp [List.replicate_succ, ignore_chars, hc, ih]

theorem dropWhile_replicate_append (p : Char → Bool) (c : Char) (hc : p c = true) (n : Nat)
    (rest : List Char) :
    (List.replicate n c ++ rest).dropWhile p = rest.dropWhile p := by
  induction n with
  | zero => simp
  | succ n ih => simp [List.replicate_succ, List.dropWhile_cons, hc, ih]

theorem blanks_cons (n : Nat) (tail : List Char) :
    List.replicate (n + 1) ' ' ++ tail = ' ' :: (List.replicate n ' ' ++ tail) := by
  rw [List.replicate_succ]
  rfl

/-- Reading the comment token `#` that is followed by 1024 blanks and then `tail`. -/
theorem read_string_long_comment (tail : List Char) :
    read_string (ifstream.ofChars ('#' :: (List.replicate 1024 ' ' ++ tail))) [] =
      ({ buf := List.replicate 1024 ' ' ++ tail, eofbit := false, failbit := false,
         badbit := false }, ['#']) := by
  rw [blanks_cons 1023 tail]
  generalize List.replicate 1023 ' ' ++ tail = l
  simp [read_string, ifstream.ofChars, ifstream.good, isspace]

/-- The comment loop after that token: the 1024 blanks use up the limit of `ignore`, and
the next token is read from `tail`, which is still on the comment line. -/
theorem GetParam_loop_long_comment (tail : List Char) :
    GetParam_loop
        { buf := List.replicate 1024 ' ' ++ tail, eofbit := false, failbit := false,
          badbit := false } ['#'] =
      GetParam_loop
        (read_string { buf := tail, eofbit := false, failbit := false, badbit := false } ['#']).1
        (read_string { buf := tail, eofbit := false, failbit := false, badbit := false } ['#']).2 := by
  rw [GetParam_loop_step
    { buf := List.replicate 1024 ' ' ++ tail, eofbit := false, failbit := false,
      badbit := false } ['#'] rfl rfl]
  have h : ifstream.ignore
      { buf := List.replicate 1024 ' ' ++ tail, eofbit := false, failbit := false,
        badbit := false } 1024 '\n' =
      { buf := tail, eofbit := false, failbit := false, badbit := false } := by
    simp only [ifstream.ignore, ifstream.good, Bool.not_false, Bool.and_self, if_true]
    rw [ignore_chars_replicate '\n' ' ' (by decide) 1024 tail]
  rw [h]

/-- The specification's reading of the same content: the comment ends with its line. -/
theorem first_param_token_long_comment (tail : List Char) :
    first_param_token ('#' :: (List.replicate 1024 ' ' ++ tail)) =
      first_param_token (skip_line tail) := by
  rw [first_param_token_comment _ (List.replicate 1024 ' ' ++ tail)
    (by rw [List.dropWhile_cons_of_neg (by decide)])]
  rw [List.dropWhile_cons_of_pos (by decide), blanks_cons 1023 tail,
    List.dropWhile_cons_of_neg (by decide), ← blanks_cons 1023 tail]
  have h : skip_line (List.replicate 1024 ' ' ++ tail) = skip_line tail := by
    unfold skip_line
    rw [dropWhile_replicate_append _ ' ' (by decide)]
  rw [h]

/-! ### `false` is returned only when no token is left, on every content -/

theorem ignore_chars_length (delim : Char) (n : Nat) (cs : List Char) :
    (ignore_chars delim n cs).1.length ≤ cs.length := by
  induction n generalizing cs with
  | zero => simp [ignore_chars]
  | succ n ih =>
    cases cs with
    | nil => simp [ignore_chars]
    | cons c cs =>
      simp only [ignore_chars]
      split
      · simp
      · exact Nat.le_trans (ih cs) (by simp)

/-- Whatever the limit, `ignore` ends at the end of the content with `eofbit` set, or at the
end of the line, or within the line. -/
theorem ignore_chars_within_line (n : Nat) (cs : List Char) :
    ((ignore_chars '\n' n cs).2 = true ∧ (ignore_chars '\n' n cs).1 = [] ∧ skip_line cs = []) ∨
    ((ignore_chars '\n' n cs).2 = false ∧
      ((ignore_chars '\n' n cs).1 = skip_line cs ∨
        skip_line (ignore_chars '\n' n cs).1 = skip_line cs)) := by
  induction n generalizing cs with
  | zero => right; exact ⟨rfl, Or.inr rfl⟩
  | succ n ih =>
    cases cs with
    | nil => left; simp [ignore_chars, skip_line]
    | cons c cs =>
      by_cases hc : c = '\n'
      · subst hc
        right
        simp [ignore_chars, skip_line]
      · have h2 : skip_line (c :: cs) = skip_line cs := by
          simp [skip_line, List.dropWhile_cons, hc]
        simp only [ignore_chars, hc, if_false, h2]
        exact ih cs

theorem skip_line_dropWhile_not_space (l : List Char) :
    skip_line (l.dropWhile (fun x => !isspace x)) = skip_line l := by
  induction l with
  | nil => rfl
  | cons x xs ih =>
    by_cases hx : isspace x = true
    · rw [List.dropWhile_cons_of_neg (by simp [hx])]
    · have hx2 : isspace x = false := by simpa using hx
      have hn : x ≠ '\n' := by
        intro h
        subst h
        simp [isspace] at hx2
      rw [List.dropWhile_cons_of_pos (by simp [hx2]), ih]
      simp [skip_line, List.dropWhile_cons, hn]

/-- Skipping the rest of the line and then whitespace, against skipping whitespace. -/
theorem skip_line_dropWhile_space (b : List Char) :
    (b.dropWhile isspace = [] → (skip_line b).dropWhile isspace = []) ∧
    (∀ c rest, b.dropWhile isspace = c :: rest →
      (skip_line b).dropWhile isspace = c :: rest ∨ skip_line b = skip_line (c :: rest)) := by
  induction b with
  | nil => simp [skip_line]
  | cons x xs ih =>
    by_cases hx : isspace x = true
    · rw [List.dropWhile_cons_of_pos hx]
      by_cases hn : x = '\n'
      · subst hn
        have h : skip_line ('\n' :: xs) = xs := by simp [skip_line]
        rw [h]
        exact ⟨fun h => h, fun c rest h => Or.inl h⟩
      · have h : skip_line (x :: xs) = skip_line xs := by
          simp [skip_line, List.dropWhile_cons, hn]
        rw [h]
        exact ih
    · rw [List.dropWhile_cons_of_neg hx]
      constructor
      · intro h; cases h
      · intro c rest h
        right
        rw [h]

theorem first_param_token_skip_line_none (b : List Char) (h : b.dropWhile isspace = []) :
    first_param_token (skip_line b) = none :=
  first_param_token_none _ ((skip_line_dropWhile_space b).1 h)

theorem first_param_token_skip_line_comment (b rest : List Char)
    (h : b.dropWhile isspace = '#' :: rest) :
    first_param_token (skip_line b) =
      first_param_token (skip_line (('#' :: rest).dropWhile (fun x => !isspace x))) := by
  rcases (skip_line_dropWhile_space b).2 '#' rest h with h1 | h1
  · exact first_param_token_comment _ rest h1
  · rw [h1, skip_line_dropWhile_not_space]

/-- The comment loop on every content: when it ends with the stream not good and the token
still a comment token, the specification's reading finds no token either. -/
theorem GetParam_loop_false_only (n : Nat) : ∀ (g : ifstream) (instr : List Char),
    g.buf.length < n → instr.head? = some '#' → g.failbit = false → g.badbit = false →
    (g.eofbit = true → g.buf = []) →
    (GetParam_loop g instr).1.good = false → (GetParam_loop g instr).2.head? = some '#' →
    first_param_token (skip_line g.buf) = none := by
  induction n with
  | zero => intro g instr h; omega
  | succ n ih =>
    intro g instr hlen hinstr hfail hbad heof
    by_cases hg : g.good = true
    · rw [GetParam_loop_step g instr hinstr hg]
      have hign : g.ignore 1024 '\n' =
          { g with buf := (ignore_chars '\n' 1024 g.buf).1,
                   eofbit := (ignore_chars '\n' 1024 g.buf).2 } := by
        simp [ifstream.ignore, hg]
      have hilen := ignore_chars_length '\n' 1024 g.buf
      rcases ignore_chars_within_line 1024 g.buf with ⟨h2, _, h3⟩ | ⟨h2, h1⟩
      · intro _ _
        rw [h3]
        exact first_param_token_none [] rfl
      · have hg1 : (g.ignore 1024 '\n').good = true := by
          rw [hign]; simp [ifstream.good, h2, hfail, hbad]
        have hbuf : (g.ignore 1024 '\n').buf = (ignore_chars '\n' 1024 g.buf).1 := by
          rw [hign]
        cases hd : (g.ignore 1024 '\n').buf.dropWhile isspace with
        | nil =>
          intro _ _
          rcases h1 with h1 | h1
          · rw [← h1, ← hbuf]
            exact first_param_token_none _ hd
          · rw [← h1, ← hbuf]
            exact first_param_token_skip_line_none _ hd
        | cons c rest =>
          have hc := dropWhile_head_not_space _ c rest hd
          rw [read_string_tok _ _ hg1 c rest hd]
          by_cases hcc : c = '#'
          · subst hcc
            have hV : first_param_token (skip_line g.buf) = first_param_token
                (skip_line (('#' :: rest).dropWhile (fun x => !isspace x))) := by
              rcases h1 with h1 | h1
              · rw [← h1, ← hbuf]
                exact first_param_token_comment _ rest hd
              · rw [← h1, ← hbuf]
                exact first_param_token_skip_line_comment _ rest hd
            rw [hV]
            have hlen2 : (('#' :: rest).dropWhile (fun x => !isspace x)).length < n := by
              have a1 : (('#' :: rest).dropWhile (fun x => !isspace x)).length ≤ rest.length := by
                rw [List.dropWhile_cons_of_pos (by decide)]
                exact (List.dropWhile_sublist _).length_le
              have a2 : ('#' :: rest).length ≤ (g.ignore 1024 '\n').buf.length := by
                rw [← hd]; exact (List.dropWhile_sublist _).length_le
              rw [hbuf] at a2
              simp only [List.length_cons] at a2
              omega
            have hf1 : (g.ignore 1024 '\n').failbit = false := by rw [hign]; exact hfail
            have hb1 : (g.ignore 1024 '\n').badbit = false := by rw [hign]; exact hbad
            exact ih
              { g.ignore 1024 '\n' with
                buf := ('#' :: rest).dropWhile (fun x => !isspace x),
                eofbit := (('#' :: rest).dropWhile (fun x => !isspace x)).isEmpty }
              (('#' :: rest).takeWhile (fun x => !isspace x))
              hlen2 (token_head '#' rest hc) hf1 hb1 (by simp)
          · intro _ hhead
            rw [GetParam_loop_stop _ _ (by rw [token_head c rest hc]; simp [hcc])] at hhead
            rw [token_head c rest hc] at hhead
            simp [hcc] at hhead
    · intro _ _
      have hnil : g.buf = [] := by
        apply heof
        simp [ifstream.good, hfail, hbad] at hg
        exact hg
      rw [hnil]
      exact first_param_token_none _ rfl

/-- On every stream, `GetParam` returns `false` only when the stream is not good on entry or
the specification's reading finds no token outside comments. -/
theorem GetParam_false_only_without_token {T : Type} (extract : ifstream → T → ifstream × T)
    (f : ifstream) (output : T) (h : (GetParam extract f output).ret = false) :
    f.good = false ∨ first_param_token f.buf = none := by
  by_cases hgood : f.good = true
  · right
    have hbits : f.eofbit = false ∧ f.failbit = false ∧ f.badbit = false := by
      simpa [ifstream.good, and_assoc] using hgood
    cases hd : f.buf.dropWhile isspace with
    | nil => exact first_param_token_none _ hd
    | cons c rest =>
      have hc := dropWhile_head_not_space _ c rest hd
      have hr0 := read_string_tok f [] hgood c rest hd
      have htok := token_head c rest hc
      have hne : ((c :: rest).takeWhile (fun x => !isspace x)).isEmpty = false := by
        cases hx : (c :: rest).takeWhile (fun x => !isspace x) with
        | nil => rw [hx] at htok; simp at htok
        | cons _ _ => rfl
      by_cases hcc : c = '#'
      · subst hcc
        rw [first_param_token_comment _ rest hd]
        have hlen : (('#' :: rest).dropWhile (fun x => !isspace x)).length <
            f.buf.length + 1 := by
          have a1 := (List.dropWhile_sublist (fun x => !isspace x) (l := '#' :: rest)).length_le
          have a2 : ('#' :: rest).length ≤ f.buf.length := by
            rw [← hd]; exact (List.dropWhile_sublist _).length_le
          omega
        simp only [GetParam, hgood, hr0, hne] at h
        simp only [Bool.not_true, Bool.false_eq_true, if_false] at h
        split at h
        · rename_i hcheck
          simp only [Bool.and_eq_true, Bool.not_eq_true', decide_eq_true_eq] at hcheck
          exact GetParam_loop_false_only (f.buf.length + 1)
            { f with
              buf := ('#' :: rest).dropWhile (fun x => !isspace x),
              eofbit := (('#' :: rest).dropWhile (fun x => !isspace x)).isEmpty }
            (('#' :: rest).takeWhile (fun x => !isspace x))
            hlen htok hbits.2.1 hbits.2.2 (by simp) hcheck.1.1 hcheck.2
        · cases h
      · have hstop := GetParam_loop_stop
          { f with
            buf := (c :: rest).dropWhile (fun x => !isspace x),
            eofbit := ((c :: rest).dropWhile (fun x => !isspace x)).isEmpty }
          ((c :: rest).takeWhile (fun x => !isspace x)) (by rw [htok]; simp [hcc])
        simp [GetParam, hgood, hr0, hne, hstop, htok, hcc] at h
  · left
    simpa using hgood

/-! ## The claims on `GetParam` -/

/-- C1 (the code departs from the claim). The claim: a token beginning with `#` is discarded
with the whole remainder of its line, whatever the length of the line, and the value is
parsed from the first following token that does not begin with `#`. On the content `#`,
1024 blanks, `1`, newline, `2` the comment line is discarded only up to the 1024 characters
given to `ignore`: the specification's reading gives the token `2`, and `GetParam` returns
`true` with `output` parsed from `1`, text that sits on the comment line. -/
theorem GetParam_reads_inside_long_comment :
    first_param_token ('#' :: (List.replicate 1024 ' ' ++ "1\n2".toList)) = some "2".toList ∧
    (GetParam read_string
      (ifstream.ofChars ('#' :: (List.replicate 1024 ' ' ++ "1\n2".toList))) []).ret = true ∧
    (GetParam read_string
      (ifstream.ofChars ('#' :: (List.replicate 1024 ' ' ++ "1\n2".toList))) []).output =
        "1".toList := by
  have h0 : (ifstream.ofChars
      ('#' :: (List.replicate 1024 ' ' ++ "1\n2".toList))).good = true := rfl
  refine ⟨?_, ?_, ?_⟩
  · rw [first_param_token_long_comment]
    simp [skip_line, first_param_token, isspace]
  · simp only [GetParam, h0, read_string_long_comment, GetParam_loop_long_comment]
    simp [GetParam_loop, read_string, ifstream.good, isspace]
  · simp only [GetParam, h0, read_string_long_comment, GetParam_loop_long_comment]
    simp [GetParam_loop, read_string, ifstream.good, ifstream.ofChars, isspace]

/-- C2 (the code departs from the claim). The claim: `GetParam` returns `false` exactly when
the stream is not good on entry or only whitespace and comments are left, and then `output`
is unchanged. On the good stream with content `#`, 1024 blanks, `x` only a comment is left
(the specification's reading finds no token), and `GetParam` returns `true` and overwrites
the empty `output` with `x`. -/
theorem GetParam_true_on_long_comment_only :
    (ifstream.ofChars ('#' :: (List.replicate 1024 ' ' ++ "x".toList))).good = true ∧
    first_param_token ('#' :: (List.replicate 1024 ' ' ++ "x".toList)) = none ∧
    (GetParam read_string
      (ifstream.ofChars ('#' :: (List.replicate 1024 ' ' ++ "x".toList))) []).ret = true ∧
    (GetParam read_string
      (ifstream.ofChars ('#' :: (List.replicate 1024 ' ' ++ "x".toList))) []).output =
        "x".toList := by
  have h0 : (ifstream.ofChars
      ('#' :: (List.replicate 1024 ' ' ++ "x".toList))).good = true := rfl
  refine ⟨h0, ?_, ?_, ?_⟩
  · rw [first_param_token_long_comment]
    simp [skip_line, first_param_token, isspace]
  · simp only [GetParam, h0, read_string_long_comment, GetParam_loop_long_comment]
    simp [GetParam_loop, read_string, ifstream.good, isspace]
  · simp only [GetParam, h0, read_string_long_comment, GetParam_loop_long_comment]
    simp [GetParam_loop, read_string, ifstream.good, ifstream.ofChars, isspace]

/-- C3 (the code departs from the claim). The claim: a `true` result implies that the token
was converted to a `T`, and a token that cannot be converted, such as `abc` read into an
`int`, yields `false`. The flag `GetParam` returns is the same for every output type and
extraction, so it does not depend on the conversion; and on the content `abc` read into an
`int` holding 5 the extraction fails (`failbit`, the value stored is 0, not a conversion of
the token), yet `GetParam` returns `true`. -/
theorem GetParam_true_on_failed_conversion :
    (∀ (T U : Type) (extract : ifstream → T → ifstream × T)
        (extract2 : ifstream → U → ifstream × U) (f : ifstream) (output : T) (output2 : U),
      (GetParam extract f output).ret = (GetParam extract2 f output2).ret) ∧
    (read_int (ifstream.ofChars "abc".toList) 5).1.failbit = true ∧
    (GetParam read_int (ifstream.ofChars "abc".toList) 5).ret = true ∧
    (GetParam read_int (ifstream.ofChars "abc".toList) 5).output = 0 := by
  refine ⟨?_, ?_, ?_, ?_⟩
  · intro T U extract extract2 f output output2
    simp only [GetParam]
    split_ifs <;> rfl
  · simp [read_int, ifstream.ofChars, ifstream.good, isspace, Char.isDigit]
  · simp [GetParam, GetParam_loop, read_string, ifstream.ofChars, ifstream.good, isspace]
  · simp [GetParam, GetParam_loop, read_string, read_int, ifstream.ofChars, ifstream.good,
      isspace, Char.isDigit]

/-! ## The claims on the lap sequence -/

theorem to_unsigned_int_two_pow : to_unsigned_int (2 ^ 32) = 0 := by
  simp [to_unsigned_int]

theorem GetSectors_of_length {X : Externals} (t : TRACK X) (n : Nat)
    (h : t.lapsequence.length = n) : (GetSectors t).1 = to_unsigned_int n := by
  rw [← h]
  rfl

theorem GetLapSequence_returned {X : Externals} (t : TRACK X) (sector : Nat)
    (h : sector < t.lapsequence.length) :
    GetLapSequence t sector = (Outcome.returned (t.lapsequence.get ⟨sector, h⟩), t) := by
  simp only [GetLapSequence, h, if_true]
  rw [List.getElem?_eq_getElem h]
  rfl

theorem GetLapSequence_failed_iff {X : Externals} (t : TRACK X) (sector : Nat) :
    (GetLapSequence t sector).1 = Outcome.assertion_failed ↔ t.lapsequence.length ≤ sector := by
  by_cases h : sector < t.lapsequence.length
  · rw [GetLapSequence_returned t sector h]
    simp
    omega
  · simp only [GetLapSequence, h, if_false]
    simp
    omega

/-- C9 (the claim fails as stated). `GetSectors` returns an `unsigned int`, so a lap sequence
of `2 ^ 32` patch references is reported as 0 sectors, not as `2 ^ 32`. -/
theorem GetSectors_wraps :
    (sample_track (List.replicate (2 ^ 32) 100) NULL).lapsequence.length = 2 ^ 32 ∧
    (GetSectors (sample_track (List.replicate (2 ^ 32) 100) NULL)).1 = 0 :=
  ⟨List.length_replicate _ _,
   (GetSectors_of_length _ (2 ^ 32) (List.length_replicate _ _)).trans to_unsigned_int_two_pow⟩

/-- C9 (amended). `GetSectors` returns the number of patch references in the lap sequence
modulo `2 ^ 32`, hence that number itself whenever it is below `2 ^ 32`: 0 for an empty lap
sequence and 4 for one of 4 patches; and it leaves the track as it was. -/
theorem GetSectors_eq {X : Externals} (t : TRACK X) :
    (GetSectors t).1 = t.lapsequence.length % 2 ^ 32 ∧
    (t.lapsequence.length < 2 ^ 32 → (GetSectors t).1 = t.lapsequence.length) ∧
    (t.lapsequence = [] → (GetSectors t).1 = 0) ∧
    (t.lapsequence.length = 4 → (GetSectors t).1 = 4) ∧
    (GetSectors t).2 = t := by
  refine ⟨rfl, ?_, ?_, ?_, rfl⟩
  · intro h
    exact Nat.mod_eq_of_lt h
  · intro h
    simp [GetSectors, to_unsigned_int, h]
  · intro h
    simp [GetSectors, to_unsigned_int, h]

/-- The amended C9 on a sample track with the 4 patches of one road strip. -/
theorem GetSectors_eq_witness :
    (GetSectors (sample_track [100, 104, 108, 112] NULL)).1 = 4 :=
  (GetSectors_eq (sample_track [100, 104, 108, 112] NULL)).2.2.2.1 rfl

/-- C4 (the claim fails as stated). With a lap sequence of `2 ^ 32` patch references
`GetSectors()` is 0, so sector 0 has `sector >= GetSectors()`, and yet the assertion of
`GetLapSequence(0)` does not fail. -/
theorem GetLapSequence_assertion_passes_beyond_GetSectors :
    (GetSectors (sample_track (List.replicate (2 ^ 32) 100) NULL)).1 ≤ 0 ∧
    (GetLapSequence (sample_track (List.replicate (2 ^ 32) 100) NULL) 0).1 ≠
      Outcome.assertion_failed := by
  constructor
  · exact Nat.le_of_eq
      ((GetSectors_of_length _ (2 ^ 32) (List.length_replicate _ _)).trans
        to_unsigned_int_two_pow)
  · intro h
    have h1 := (GetLapSequence_failed_iff _ 0).1 h
    have h2 : (sample_track (List.replicate (2 ^ 32) 100) NULL).lapsequence.length = 2 ^ 32 :=
      List.length_replicate _ _
    rw [h2] at h1
    omega

/-- C4 (amended). For every track and every sector below `GetSectors()` the call
`GetLapSequence(sector)` passes its assertion, indexes the lap sequence in bounds and
returns the patch reference stored at position `sector`; every call leaves the track as it
was; the assertion fails exactly when `sector` is at least the size of the lap sequence,
which is `sector >= GetSectors()` whenever that size is below `2 ^ 32`. -/
theorem GetLapSequence_spec {X : Externals} (t : TRACK X) (sector : Nat) :
    (sector < (GetSectors t).1 →
      ∃ h : sector < t.lapsequence.length,
        GetLapSequence t sector = (Outcome.returned (t.lapsequence.get ⟨sector, h⟩), t)) ∧
    (GetLapSequence t sector).2 = t ∧
    ((GetLapSequence t sector).1 = Outcome.assertion_failed ↔
      t.lapsequence.length ≤ sector) ∧
    (t.lapsequence.length < 2 ^ 32 →
      ((GetLapSequence t sector).1 = Outcome.assertion_failed ↔ (GetSectors t).1 ≤ sector)) := by
  refine ⟨?_, ?_, GetLapSequence_failed_iff t sector, ?_⟩
  · intro h
    have h1 : sector < t.lapsequence.length :=
      Nat.lt_of_lt_of_le h (Nat.mod_le _ _)
    exact ⟨h1, GetLapSequence_returned t sector h1⟩
  · by_cases h : sector < t.lapsequence.length
    · rw [GetLapSequence_returned t sector h]
    · simp only [GetLapSequence, h, if_false]
  · intro h
    rw [GetLapSequence_failed_iff]
    show t.lapsequence.length ≤ sector ↔ t.lapsequence.length % 2 ^ 32 ≤ sector
    rw [Nat.mod_eq_of_lt h]

/-- The amended C4 on a sample track with 4 sectors: sector 2 is the third patch. -/
theorem GetLapSequence_spec_witness :
    2 < (GetSectors (sample_track [100, 104, 108, 112] NULL)).1 ∧
    GetLapSequence (sample_track [100, 104, 108, 112] NULL) 2 =
      (Outcome.returned 108, sample_track [100, 104, 108, 112] NULL) :=
  ⟨by decide,
   ((GetLapSequence_spec (sample_track [100, 104, 108, 112] NULL) 2).1 (by decide)).2⟩

/-! ## The claims on the surface, the racing line and the camera -/

/-- C5. In every track state `GetRoadSurface` returns a pointer that is not null, the pointer
to the member `surface`, whose target is the track's default surface; the same holds after
`Clear` and `Unload` and whatever the named surfaces `tracksurfaces` and the flag
`usesurfaces` are; and the call leaves the track as it was. -/
theorem GetRoadSurface_default {X : Externals} (t : TRACK X) :
    (GetRoadSurface t).1 ≠ SURFACE_PTR.null ∧
    (GetRoadSurface t).1 = SURFACE_PTR.member_surface ∧
    t.surface_at (GetRoadSurface t).1 = some t.surface ∧
    (GetRoadSurface t).2 = t ∧
    (Clear t).surface_at (GetRoadSurface (Clear t)).1 = some t.surface ∧
    (Unload t).surface_at (GetRoadSurface (Unload t)).1 = some t.surface ∧
    (∀ (named : List X.TRACKSURFACE) (uses : Bool),
      (GetRoadSurface { t with tracksurfaces := named, usesurfaces := uses }).1 =
        (GetRoadSurface t).1 ∧
      ({ t with tracksurfaces := named, usesurfaces := uses } : TRACK X).surface_at
        (GetRoadSurface { t with tracksurfaces := named, usesurfaces := uses }).1 =
          some t.surface) := by
  refine ⟨?_, rfl, rfl, rfl, rfl, rfl, ?_⟩
  · simp [GetRoadSurface]
  · intro named uses
    exact ⟨rfl, rfl⟩

/-- C8. After `Unload` the racing-line node is null, so `SetRacingLineVisibility(v)` makes
no call on a scene node and leaves the track as it was; in a track whose racing-line node is
not null it makes the one call `SetChildVisibility(v)` on that node, and leaves the track as
it was. -/
theorem SetRacingLineVisibility_after_Unload {X : Externals} (t : TRACK X) (v : Bool) :
    (Unload t).racingline_node = NULL ∧
    SetRacingLineVisibility (Unload t) v = (Unload t, []) ∧
    (t.racingline_node ≠ NULL →
      SetRacingLineVisibility t v = (t, [SCENE_CALL.SetChildVisibility t.racingline_node v])) := by
  refine ⟨rfl, ?_, ?_⟩
  · simp [SetRacingLineVisibility, Unload, Clear]
  · intro h
    simp [SetRacingLineVisibility, h]

/-- C8 on a sample track whose racing-line node is at address 900. -/
theorem SetRacingLineVisibility_after_Unload_witness :
    (sample_track [] 900).racingline_node ≠ NULL ∧
    SetRacingLineVisibility (sample_track [] 900) true =
      (sample_track [] 900, [SCENE_CALL.SetChildVisibility 900 true]) ∧
    SetRacingLineVisibility (Unload (sample_track [] 900)) true =
      (Unload (sample_track [] 900), []) :=
  ⟨by decide,
   (SetRacingLineVisibility_after_Unload (sample_track [] 900) true).2.2 (by decide),
   (SetRacingLineVisibility_after_Unload (sample_track [] 900) true).2.1⟩

/-- C10. `Update` leaves the camera in exactly the state `Reset` does, whatever its last two
arguments: the orientation is `q`, the position is `p` plus the stored offset rotated by `q`,
and the name and the stored offset are unchanged; the stored offset is the one `SetOffset`
stored; the result does not depend on the position and orientation before, and a second
`Update` with the same `p` and `q` changes nothing. -/
theorem Update_eq_Reset {V Q F : Type} (ops : MATH_OPS V Q F) (c : CAMERA_FIXED V Q) (p : V)
    (q : Q) (a : V) (dt : F) :
    c.Update ops p q a dt = c.Reset ops p q ∧
    (c.Update ops p q a dt).orientation = q ∧
    (c.Update ops p q a dt).position = ops.add p (ops.RotateVector q c.offset) ∧
    (c.Update ops p q a dt).offset = c.offset ∧
    (c.Update ops p q a dt).name = c.name ∧
    (∀ x y z : F, ((c.SetOffset ops x y z).Update ops p q a dt).position =
      ops.add p (ops.RotateVector q (ops.Set x y z))) ∧
    (∀ (position : V) (orientation : Q),
      ({ c with position := position, orientation := orientation } :
        CAMERA_FIXED V Q).Update ops p q a dt = c.Update ops p q a dt) ∧
    (∀ (a2 : V) (dt2 : F),
      (c.Update ops p q a dt).Update ops p q a2 dt2 = c.Update ops p q a dt) := by
  refine ⟨rfl, rfl, rfl, rfl, rfl, ?_, ?_, ?_⟩
  · intro x y z
    rfl
  · intro position orientation
    rfl
  · intro a2 dt2
    rfl

/-! ## The claim on the load state machine -/

/-- What `DeferredLoad` reports and leaves: it reports success exactly when the stages
before the objects succeed on the files; then it leaves `ObjectsLoading` with every entry of
the objects file pending; otherwise `Empty`; `loaded` is reset and no object is loaded in
both. -/
theorem DeferredLoad_spec {X : Externals} (files : TRACK_FILES X) (reverse : Bool)
    (s : LOADING X) :
    (DeferredLoad files reverse s).1 = early_stages_succeed files ∧
    (DeferredLoad files reverse s).2.track.loaded = false ∧
    (DeferredLoad files reverse s).2.track.objects = [] ∧
    (∀ entries, files.objects = some entries → early_stages_succeed files = true →
      (DeferredLoad files reverse s).2.state =
        LOAD_STATE.ObjectsLoading entries files.racingline) ∧
    (early_stages_succeed files = false →
      (DeferredLoad files reverse s).2.state = LOAD_STATE.Empty) := by
  rcases files with ⟨parameters, surfaces, roads, lapsequence, objects, racingline⟩
  cases parameters <;> cases surfaces <;> cases roads <;> cases lapsequence <;>
    cases objects <;>
    simp [DeferredLoad, and_then, LoadParameters, LoadSurfaces, LoadRoads, BeginObjectLoad,
      LOADING.Clear, Clear, early_stages_succeed]

/-- One step of the deferred load on a track that is not loaded, entry by entry. -/
theorem ContinueDeferredLoad_spec {X : Externals} (s : LOADING X)
    (pending : List (OBJECT_ENTRY X)) (line : Option (Pointer × X.TEXTURE_GL))
    (hs : s.state = LOAD_STATE.ObjectsLoading pending line) (hl : s.track.loaded = false) :
    (pending = [] ∧ line.isSome = true ∧ (ContinueDeferredLoad s).1 = true ∧
      (ContinueDeferredLoad s).2.track.loaded = true ∧
      (ContinueDeferredLoad s).2.track.objects = s.track.objects ∧
      (ContinueDeferredLoad s).2.state = LOAD_STATE.FullyLoaded) ∨
    ((pending = [] ∧ line = none ∨ ∃ rest, pending = OBJECT_ENTRY.fatal :: rest) ∧
      (ContinueDeferredLoad s).1 = false ∧ (ContinueDeferredLoad s).2.track.loaded = false ∧
      (ContinueDeferredLoad s).2.state = LOAD_STATE.Empty) ∨
    (∃ e rest, pending = e :: rest ∧ e.is_fatal = false ∧ (ContinueDeferredLoad s).1 = true ∧
      (ContinueDeferredLoad s).2.track.loaded = false ∧
      (ContinueDeferredLoad s).2.track.objects = s.track.objects ++ valid_objects [e] ∧
      (ContinueDeferredLoad s).2.state = LOAD_STATE.ObjectsLoading rest line) := by
  rcases s with ⟨track, state⟩
  simp only at hs hl
  subst hs
  cases pending with
  | nil =>
    cases line with
    | none => right; left; simp [ContinueDeferredLoad, LOADING.Clear, Clear]
    | some l => left; simp [ContinueDeferredLoad]
  | cons e rest =>
    right
    cases e with
    | valid object =>
      right
      exact ⟨_, rest, rfl, rfl, by simp [ContinueDeferredLoad, hl, valid_objects]⟩
    | malformed =>
      right
      exact ⟨_, rest, rfl, rfl, by simp [ContinueDeferredLoad, hl, valid_objects]⟩
    | fatal => left; simp [ContinueDeferredLoad, LOADING.Clear, Clear]

theorem valid_objects_cons {X : Externals} (e : OBJECT_ENTRY X) (rest : List (OBJECT_ENTRY X)) :
    valid_objects (e :: rest) = valid_objects [e] ++ valid_objects rest := by
  cases e <;> simp [valid_objects]

/-- Driving the deferred load with a step for each entry left and one more: it reports
success, and leaves the track loaded, exactly when no entry left is fatal and the racing
line can be derived; then every valid entry left has been loaded, in order; otherwise the
track is left `Empty`. -/
theorem drive_objects_spec {X : Externals} (pending : List (OBJECT_ENTRY X)) :
    ∀ (fuel : Nat) (s : LOADING X) (line : Option (Pointer × X.TEXTURE_GL)),
      pending.length < fuel → s.state = LOAD_STATE.ObjectsLoading pending line →
      s.track.loaded = false →
      (drive_objects fuel s).1 = (pending.all (fun e => !e.is_fatal) && line.isSome) ∧
      (drive_objects fuel s).2.track.loaded =
        (pending.all (fun e => !e.is_fatal) && line.isSome) ∧
      ((pending.all (fun e => !e.is_fatal) && line.isSome) = true →
        (drive_objects fuel s).2.state = LOAD_STATE.FullyLoaded ∧
        (drive_objects fuel s).2.track.objects = s.track.objects ++ valid_objects pending) ∧
      ((pending.all (fun e => !e.is_fatal) && line.isSome) = false →
        (drive_objects fuel s).2.state = LOAD_STATE.Empty) := by
  induction pending with
  | nil =>
    intro fuel s line hf hs hl
    cases fuel with
    | zero => simp at hf
    | succ fuel =>
      rcases ContinueDeferredLoad_spec s [] line hs hl with
        ⟨_, h0, h1, h2, h3, h4⟩ | ⟨h0, h1, h2, h3⟩ | ⟨e, rest, h0, _⟩
      · simp [drive_objects, h0, h1, h2, h3, h4, valid_objects]
      · rcases h0 with ⟨_, h0⟩ | ⟨rest, h0⟩
        · simp [drive_objects, h0, h1, h2, h3]
        · cases h0
      · cases h0
  | cons e rest ih =>
    intro fuel s line hf hs hl
    cases fuel with
    | zero => simp at hf
    | succ fuel =>
      rcases ContinueDeferredLoad_spec s (e :: rest) line hs hl with
        ⟨h0, _⟩ | ⟨h0, h1, h2, h3⟩ | ⟨e2, rest2, h0, hnf, h1, h2, h3, h4⟩
      · cases h0
      · rcases h0 with ⟨h0, _⟩ | ⟨rest2, h0⟩
        · cases h0
        · have he : e = OBJECT_ENTRY.fatal := (List.cons.inj h0).1
          subst he
          simp [drive_objects, h1, h2, h3, OBJECT_ENTRY.is_fatal]
      · have he : e = e2 := (List.cons.inj h0).1
        have hr : rest = rest2 := (List.cons.inj h0).2
        subst he
        subst hr
        have hf2 : rest.length < fuel := by
          simp only [List.length_cons] at hf
          omega
        have key := ih fuel (ContinueDeferredLoad s).2 line hf2 h4 h2
        have hd : drive_objects (fuel + 1) s = drive_objects fuel (ContinueDeferredLoad s).2 := by
          simp [drive_objects, h1, h2]
        rw [h3, List.append_assoc, ← valid_objects_cons] at key
        rw [hd]
        simpa [hnf] using key

/-- What `Load` reports and leaves: it reports success, and leaves the track loaded, exactly
when every stage succeeds on the files; then the track is `FullyLoaded` and holds the object
of every valid entry; otherwise it is `Empty`. -/
theorem Load_spec {X : Externals} (files : TRACK_FILES X) (reverse : Bool) (s : LOADING X) :
    (Load files reverse s).1 = all_stages_succeed files ∧
    (Load files reverse s).2.track.loaded = all_stages_succeed files ∧
    (all_stages_succeed files = true →
      (Load files reverse s).2.state = LOAD_STATE.FullyLoaded ∧
      ∀ entries, files.objects = some entries →
        (Load files reverse s).2.track.objects = valid_objects entries) ∧
    (all_stages_succeed files = false →
      (Load files reverse s).2.state = LOAD_STATE.Empty) := by
  obtain ⟨h1, h2, h3, h4, h5⟩ := DeferredLoad_spec files reverse s
  cases he : early_stages_succeed files with
  | false =>
    rw [he] at h1
    have ha : all_stages_succeed files = false := by simp [all_stages_succeed, he]
    simp [Load, and_then, h1, h2, ha, h5 he]
  | true =>
    rw [he] at h1
    cases ho : files.objects with
    | none => simp [early_stages_succeed, ho] at he
    | some entries =>
      have hst := h4 entries ho he
      have key := drive_objects_spec entries (entries.length + 1)
        (DeferredLoad files reverse s).2 files.racingline (Nat.lt_succ_self _) hst h2
      have ha : all_stages_succeed files =
          (entries.all (fun e => !e.is_fatal) && files.racingline.isSome) := by
        simp [all_stages_succeed, he, ho]
      have hL : Load files reverse s =
          drive_objects (entries.length + 1) (DeferredLoad files reverse s).2 := by
        simp [Load, and_then, h1, hst, LOAD_STATE.remaining]
      rw [hL, ha]
      rw [h3, List.nil_append] at key
      refine ⟨key.1, key.2.1, ?_, key.2.2.2⟩
      intro hall
      refine ⟨(key.2.2.1 hall).1, ?_⟩
      intro entries2 h2e
      cases h2e
      exact (key.2.2.1 hall).2

theorem continue_times_Empty {X : Externals} (k : Nat) :
    ∀ s : LOADING X, s.state = LOAD_STATE.Empty → continue_times k s = s := by
  induction k with
  | zero => intro s _; rfl
  | succ k ih =>
    intro s hs
    have h : (ContinueDeferredLoad s).2 = s := by
      rcases s with ⟨track, state⟩
      simp only at hs
      subst hs
      rfl
    simp only [continue_times, h]
    exact ih s hs

/-- Calls of `ContinueDeferredLoad` after a successful `DeferredLoad`: the track is not
loaded after any number of calls up to the number of entries, and after one call more it is
loaded exactly when no entry is fatal and the racing line can be derived. -/
theorem continue_times_spec {X : Externals} (pending : List (OBJECT_ENTRY X)) :
    ∀ (s : LOADING X) (line : Option (Pointer × X.TEXTURE_GL)),
      s.state = LOAD_STATE.ObjectsLoading pending line → s.track.loaded = false →
      (∀ k, k ≤ pending.length → (continue_times k s).track.loaded = false) ∧
      (continue_times (pending.length + 1) s).track.loaded =
        (pending.all (fun e => !e.is_fatal) && line.isSome) := by
  induction pending with
  | nil =>
    intro s line hs hl
    constructor
    · intro k hk
      have : k = 0 := by simpa using hk
      subst this
      exact hl
    · rcases ContinueDeferredLoad_spec s [] line hs hl with
        ⟨_, h0, _, h2, _, _⟩ | ⟨h0, _, h2, _⟩ | ⟨e, rest, h0, _⟩
      · simp [continue_times, h0, h2]
      · rcases h0 with ⟨_, h0⟩ | ⟨rest, h0⟩
        · simp [continue_times, h0, h2]
        · cases h0
      · cases h0
  | cons e rest ih =>
    intro s line hs hl
    rcases ContinueDeferredLoad_spec s (e :: rest) line hs hl with
      ⟨h0, _⟩ | ⟨h0, _, h2, h3⟩ | ⟨e2, rest2, h0, hnf, _, h2, _, h4⟩
    · cases h0
    · rcases h0 with ⟨h0, _⟩ | ⟨rest2, h0⟩
      · cases h0
      · have he : e = OBJECT_ENTRY.fatal := (List.cons.inj h0).1
        subst he
        constructor
        · intro k hk
          cases k with
          | zero => exact hl
          | succ k =>
            simp only [continue_times]
            rw [continue_times_Empty k _ h3]
            exact h2
        · have hc : continue_times ((OBJECT_ENTRY.fatal :: rest).length + 1) s =
              continue_times (rest.length + 1) (ContinueDeferredLoad s).2 := rfl
          rw [hc, continue_times_Empty _ _ h3]
          simp [h2, OBJECT_ENTRY.is_fatal]
    · have he : e = e2 := (List.cons.inj h0).1
      have hr : rest = rest2 := (List.cons.inj h0).2
      subst he
      subst hr
      obtain ⟨k1, k2⟩ := ih (ContinueDeferredLoad s).2 line h4 h2
      constructor
      · intro k hk
        cases k with
        | zero => exact hl
        | succ k =>
          simp only [continue_times]
          exact k1 k (by simp only [List.length_cons] at hk; omega)
      · have hc : continue_times ((e :: rest).length + 1) s =
            continue_times (rest.length + 1) (ContinueDeferredLoad s).2 := rfl
        rw [hc, k2]
        simp [hnf]

/-- The invariant of the load state machine. -/
theorem Reachable_loaded_iff {X : Externals} (s : LOADING X) (h : Reachable s) :
    s.track.loaded = true ↔ s.state = LOAD_STATE.FullyLoaded := by
  induction h with
  | construct surface texture => simp [LOADING.construct]
  | Clear s _ _ => simp [LOADING.Clear, Clear]
  | Unload s _ _ => simp [LOADING.Unload, Unload, Clear]
  | Load files reverse s _ _ =>
    obtain ⟨_, h2, h3, h4⟩ := Load_spec files reverse s
    cases ha : all_stages_succeed files with
    | true => simp [h2, ha, (h3 ha).1]
    | false => simp [h2, ha, h4 ha]
  | DeferredLoad files reverse s _ _ =>
    obtain ⟨_, h2, _, h4, h5⟩ := DeferredLoad_spec files reverse s
    cases he : early_stages_succeed files with
    | false => simp [h2, h5 he]
    | true =>
      cases ho : files.objects with
      | none => simp [early_stages_succeed, ho] at he
      | some entries => simp [h2, h4 entries ho he]
  | ContinueDeferredLoad s _ ih =>
    cases hs : s.state with
    | ObjectsLoading pending line =>
      have hl : s.track.loaded = false := by
        cases hb : s.track.loaded with
        | false => rfl
        | true => rw [ih.1 hb] at hs; cases hs
      rcases ContinueDeferredLoad_spec s pending line hs hl with
        ⟨_, _, _, h2, _, h3⟩ | ⟨_, _, h2, h3⟩ | ⟨e, rest, _, _, _, h2, _, h3⟩ <;>
        simp [h2, h3]
    | Empty => simpa [ContinueDeferredLoad, hs] using ih
    | ParametersLoaded => simpa [ContinueDeferredLoad, hs] using ih
    | SurfacesLoaded => simpa [ContinueDeferredLoad, hs] using ih
    | RoadsLoaded => simpa [ContinueDeferredLoad, hs] using ih
    | FullyLoaded => simpa [ContinueDeferredLoad, hs] using ih
  | SetRacingLineVisibility s newvis _ ih =>
    have : (SetRacingLineVisibility s.track newvis).1 = s.track := by
      simp only [SetRacingLineVisibility]
      split <;> rfl
    simpa [this] using ih

/-- C6. In every state the public operations reach from a constructed track, `Loaded()` is
true if and only if the track is in the `FullyLoaded` state. It is false for a constructed
track and after `Clear` and `Unload`. `DeferredLoad` reports success exactly when the stages
before the objects succeed on the files and leaves `Loaded()` false in either case, `Empty`
on failure. `Load` reports success exactly when every stage succeeds on the files, and
`Loaded()` is true after it exactly then; on failure the track is `Empty`, on success it
holds the object of every valid entry. After a successful `DeferredLoad`, `Loaded()` is
false after any number of calls of `ContinueDeferredLoad` up to the number of entries, and
after one call more it is true exactly when every stage succeeds. A `ContinueDeferredLoad`
that reports failure leaves `Loaded()` false; on a fatal entry it reports failure and leaves
`Empty`; with an entry left to process it leaves `Loaded()` false; with no entry left it
reports success and makes `Loaded()` true exactly when the racing line can be derived. -/
theorem Loaded_iff_FullyLoaded {X : Externals} :
    (∀ s : LOADING X, Reachable s →
      ((Loaded s.track).1 = true ↔ s.state = LOAD_STATE.FullyLoaded)) ∧
    (∀ (surface : X.TRACKSURFACE) (texture : X.TEXTURE_GL),
      (Loaded (LOADING.construct (X := X) surface texture).track).1 = false) ∧
    (∀ s : LOADING X, (Loaded s.Clear.track).1 = false ∧ (Loaded s.Unload.track).1 = false) ∧
    (∀ (files : TRACK_FILES X) (reverse : Bool) (s : LOADING X),
      (DeferredLoad files reverse s).1 = early_stages_succeed files ∧
      (Loaded (DeferredLoad files reverse s).2.track).1 = false ∧
      (early_stages_succeed files = false →
        (DeferredLoad files reverse s).2.state = LOAD_STATE.Empty)) ∧
    (∀ (files : TRACK_FILES X) (reverse : Bool) (s : LOADING X),
      (Load files reverse s).1 = all_stages_succeed files ∧
      (Loaded (Load files reverse s).2.track).1 = all_stages_succeed files ∧
      (all_stages_succeed files = false →
        (Load files reverse s).2.state = LOAD_STATE.Empty) ∧
      (all_stages_succeed files = true → ∀ entries, files.objects = some entries →
        (Load files reverse s).2.track.objects = valid_objects entries)) ∧
    (∀ (files : TRACK_FILES X) (reverse : Bool) (s : LOADING X)
        (entries : List (OBJECT_ENTRY X)),
      files.objects = some entries → early_stages_succeed files = true →
      (∀ k, k ≤ entries.length →
        (Loaded (continue_times k (DeferredLoad files reverse s).2).track).1 = false) ∧
      (Loaded (continue_times (entries.length + 1) (DeferredLoad files reverse s).2).track).1 =
        all_stages_succeed files) ∧
    (∀ s : LOADING X, Reachable s → (ContinueDeferredLoad s).1 = false →
      (Loaded (ContinueDeferredLoad s).2.track).1 = false) ∧
    (∀ (s : LOADING X) (rest : List (OBJECT_ENTRY X)) (line : Option (Pointer × X.TEXTURE_GL)),
      Reachable s → s.state = LOAD_STATE.ObjectsLoading (OBJECT_ENTRY.fatal :: rest) line →
      (ContinueDeferredLoad s).1 = false ∧
        (Loaded (ContinueDeferredLoad s).2.track).1 = false ∧
        (ContinueDeferredLoad s).2.state = LOAD_STATE.Empty) ∧
    (∀ (s : LOADING X) (e : OBJECT_ENTRY X) (rest : List (OBJECT_ENTRY X))
        (line : Option (Pointer × X.TEXTURE_GL)), Reachable s →
      s.state = LOAD_STATE.ObjectsLoading (e :: rest) line →
        (Loaded (ContinueDeferredLoad s).2.track).1 = false) ∧
    (∀ (s : LOADING X) (line : Option (Pointer × X.TEXTURE_GL)), Reachable s →
      s.state = LOAD_STATE.ObjectsLoading [] line →
      (ContinueDeferredLoad s).1 = line.isSome ∧
        (Loaded (ContinueDeferredLoad s).2.track).1 = line.isSome) := by
  have hfalse : ∀ (s : LOADING X) (pending : List (OBJECT_ENTRY X))
      (line : Option (Pointer × X.TEXTURE_GL)), Reachable s →
      s.state = LOAD_STATE.ObjectsLoading pending line → s.track.loaded = false := by
    intro s pending line hr hs
    cases hb : s.track.loaded with
    | false => rfl
    | true => rw [(Reachable_loaded_iff s hr).1 hb] at hs; cases hs
  refine ⟨fun s h => Reachable_loaded_iff s h, fun _ _ => rfl, fun _ => ⟨rfl, rfl⟩,
    ?_, ?_, ?_, ?_, ?_, ?_, ?_⟩
  · intro files reverse s
    obtain ⟨h1, h2, _, _, h5⟩ := DeferredLoad_spec files reverse s
    exact ⟨h1, h2, h5⟩
  · intro files reverse s
    obtain ⟨h1, h2, h3, h4⟩ := Load_spec files reverse s
    exact ⟨h1, h2, h4, fun ha => (h3 ha).2⟩
  · intro files reverse s entries ho he
    obtain ⟨_, h2, _, h4, _⟩ := DeferredLoad_spec files reverse s
    obtain ⟨k1, k2⟩ := continue_times_spec entries (DeferredLoad files reverse s).2
      files.racingline (h4 entries ho he) h2
    refine ⟨k1, ?_⟩
    show (continue_times (entries.length + 1) (DeferredLoad files reverse s).2).track.loaded =
      all_stages_succeed files
    rw [k2]
    simp [all_stages_succeed, he, ho]
  · intro s hr h
    cases hs : s.state with
    | ObjectsLoading pending line =>
      rcases ContinueDeferredLoad_spec s pending line hs (hfalse s pending line hr hs) with
        ⟨_, _, h2, _⟩ | ⟨_, _, h2, _⟩ | ⟨_, _, _, _, _, h2, _⟩
      · rw [h2] at h; cases h
      · exact h2
      · exact h2
    | Empty => simpa [ContinueDeferredLoad, hs, Loaded] using h
    | ParametersLoaded => simpa [ContinueDeferredLoad, hs, Loaded] using h
    | SurfacesLoaded => simpa [ContinueDeferredLoad, hs, Loaded] using h
    | RoadsLoaded => simpa [ContinueDeferredLoad, hs, Loaded] using h
    | FullyLoaded => simpa [ContinueDeferredLoad, hs, Loaded] using h
  · intro s rest line hr hs
    rcases ContinueDeferredLoad_spec s _ line hs (hfalse s _ line hr hs) with
      ⟨h0, _⟩ | ⟨_, h1, h2, h3⟩ | ⟨e, rest2, h0, hnf, _⟩
    · cases h0
    · exact ⟨h1, h2, h3⟩
    · have he : OBJECT_ENTRY.fatal = e := (List.cons.inj h0).1
      subst he
      simp [OBJECT_ENTRY.is_fatal] at hnf
  · intro s e rest line hr hs
    rcases ContinueDeferredLoad_spec s (e :: rest) line hs (hfalse s _ line hr hs) with
      ⟨h0, _⟩ | ⟨_, _, h2, _⟩ | ⟨_, _, _, _, _, h2, _⟩
    · cases h0
    · exact h2
    · exact h2
  · intro s line hr hs
    rcases ContinueDeferredLoad_spec s [] line hs (hfalse s _ line hr hs) with
      ⟨_, h0, h1, h2, _⟩ | ⟨h0, h1, h2, _⟩ | ⟨_, _, h0, _⟩
    · exact ⟨by rw [h1, h0], by show _ = _; rw [h0]; exact h2⟩
    · rcases h0 with ⟨_, h0⟩ | ⟨rest, h0⟩
      · subst h0
        exact ⟨h1, h2⟩
      · cases h0
    · cases h0

/-- C6 on the sample files. With every stage succeeding, a `Load` from a constructed track
leaves a reachable state in which `Loaded()` is true, and a `DeferredLoad` leaves it false
through the two calls of `ContinueDeferredLoad` for the two entries and true after the
third; with a fatal entry in the objects file `Load` leaves `Loaded()` false. -/
theorem Loaded_iff_FullyLoaded_witness :
    Reachable (Load sample_files false (LOADING.construct (1 : Nat) (0 : Nat))).2 ∧
    (Loaded (Load sample_files false (LOADING.construct (1 : Nat) (0 : Nat))).2.track).1 =
      true ∧
    (Loaded (continue_times 2 (DeferredLoad sample_files false
      (LOADING.construct (1 : Nat) (0 : Nat))).2).track).1 = false ∧
    (Loaded (continue_times 3 (DeferredLoad sample_files false
      (LOADING.construct (1 : Nat) (0 : Nat))).2).track).1 = true ∧
    (Loaded (Load sample_files_fatal false (LOADING.construct (1 : Nat) (0 : Nat))).2.track).1 =
      false :=
  ⟨Reachable.Load _ _ _ (Reachable.construct _ _),
   (((Loaded_iff_FullyLoaded (X := sample_externals)).2.2.2.2.1
     sample_files false (LOADING.construct (1 : Nat) (0 : Nat))).2.1).trans (by decide),
   (((Loaded_iff_FullyLoaded (X := sample_externals)).2.2.2.2.2.1
     sample_files false (LOADING.construct (1 : Nat) (0 : Nat)) _ rfl (by decide)).1 2
       (by decide)),
   (((Loaded_iff_FullyLoaded (X := sample_externals)).2.2.2.2.2.1
     sample_files false (LOADING.construct (1 : Nat) (0 : Nat)) _ rfl (by decide)).2).trans
       (by decide),
   (((Loaded_iff_FullyLoaded (X := sample_externals)).2.2.2.2.1
     sample_files_fatal false (LOADING.construct (1 : Nat) (0 : Nat))).2.1).trans (by decide)⟩

/-! ## The claim on the space index -/

section SpaceIndex

variable {Patch Ray Box Hit D : Type} [LinearOrder D]

theorem Covers.merge_left {g : GEOMETRY Patch Ray Box Hit D} (hg : g.Bounding) {a : Box}
    {p : Patch} (h : Covers g a p) (b : Box) : Covers g (g.merge a b) p := by
  intro r hit hi
  obtain ⟨d, hd, hle⟩ := h r hit hi
  obtain ⟨e, he, hle2⟩ := hg.merge_left r a b d hd
  exact ⟨e, he, le_trans hle2 hle⟩

theorem Covers.merge_right {g : GEOMETRY Patch Ray Box Hit D} (hg : g.Bounding) {b : Box}
    {p : Patch} (h : Covers g b p) (a : Box) : Covers g (g.merge a b) p := by
  intro r hit hi
  obtain ⟨d, hd, hle⟩ := h r hit hi
  obtain ⟨e, he, hle2⟩ := hg.merge_right r a b d hd
  exact ⟨e, he, le_trans hle2 hle⟩

end SpaceIndex

end Vdrift
